import Mathlib

/-!
Verification of the PassesDL media-archival client against its specification.

The Python sources under src/ are shallowly embedded: dynamic Python values
become the inductive type PyVal, fallible operations return Except Err,
stateful operations pass an explicit RunState, and external collaborators
(HTTP fetches, the license server, yt-dlp, Shaka Packager, ffmpeg) are
modelled as oracle parameters describing the outcome of each invocation.
-/

/-- The Python-level exceptions that the embedded code can raise. -/
inductive PyErr where
  | keyError
  | attributeError
  | typeError
  | valueError
deriving Repr, DecidableEq

/-- Errors raised by the embedded client code: Python exceptions, HTTP
response errors (aiohttp ClientResponseError carrying a status), other
network failures, and the repository error classes. -/
inductive Err where
  | py (e : PyErr)
  | http (status : Nat)
  | netOther
  | mediaDecryption (msg : String)
  | fileNotFound (msg : String)
  | toolFailed
  | downloadError
deriving Repr, DecidableEq

/-- A dynamic Python value, as produced by json or xmltodict parsing:
strings, integers, dicts (insertion-ordered association lists with unique
keys), lists, and None. -/
inductive PyVal where
  | str (s : String)
  | int (n : Int)
  | dict (entries : List (String × PyVal))
  | list (items : List PyVal)
  | none

/-- First-match lookup in a dict. Python dicts have unique keys, so the
first match is the only one. -/
def dictLookup (d : List (String × PyVal)) (k : String) : Option PyVal :=
  (d.find? (fun e => e.1 == k)).map (fun e => e.2)

/-- `v.get(k)` with default None: raises AttributeError when v is not a
dict. -/
def pyGetE (v : PyVal) (k : String) : Except Err PyVal :=
  match v with
  | .dict d => .ok ((dictLookup d k).getD .none)
  | _ => .error (.py .attributeError)

/-- `v.get(k, dflt)`: raises AttributeError when v is not a dict. -/
def pyGetDefault (v : PyVal) (k : String) (dflt : PyVal) : Except Err PyVal :=
  match v with
  | .dict d => .ok ((dictLookup d k).getD dflt)
  | _ => .error (.py .attributeError)

/-- `v[k]`: KeyError when the key is missing, TypeError when v is not
subscriptable by a string key. -/
def pyIndexE (v : PyVal) (k : String) : Except Err PyVal :=
  match v with
  | .dict d =>
    match dictLookup d k with
    | some x => .ok x
    | Option.none => .error (.py .keyError)
  | _ => .error (.py .typeError)

/-- `for x in v`: lists yield their items, dicts their keys, strings their
characters; other values raise TypeError. -/
def pyIterE (v : PyVal) : Except Err (List PyVal) :=
  match v with
  | .list l => .ok l
  | .dict d => .ok (d.map (fun e => PyVal.str e.1))
  | .str s => .ok (s.data.map (fun c => PyVal.str (String.mk [c])))
  | _ => .error (.py .typeError)

/-- Python truthiness for the modelled values. -/
def pyTruthy : PyVal → Bool
  | .str s => !s.isEmpty
  | .int n => n != 0
  | .dict d => !d.isEmpty
  | .list l => !l.isEmpty
  | .none => false

/-- `a or b` on Python values (b is a pure value here, so the laziness of
`or` does not matter). -/
def pyOr (a b : PyVal) : PyVal := if pyTruthy a then a else b

/-- Equality of a Python value with a string literal (Python `==`). -/
def pyEqStr (v : PyVal) (s : String) : Bool :=
  match v with
  | .str t => t == s
  | _ => false

/-- Substring test on character lists. -/
def charsContain (hay needle : List Char) : Bool :=
  match hay with
  | [] => needle.isEmpty
  | _ :: rest => needle.isPrefixOf hay || charsContain rest needle

/-- `needle in hay` for strings (Python substring containment). -/
def strContains (hay needle : String) : Bool :=
  charsContain hay.data needle.data

/-- `k in v`: key containment for dicts, membership for lists, substring
for strings; TypeError otherwise. -/
def pyContainsE (k : String) (v : PyVal) : Except Err Bool :=
  match v with
  | .dict d => .ok (d.any (fun e => e.1 == k))
  | .list l => .ok (l.any (fun x => pyEqStr x k))
  | .str s => .ok (strContains s k)
  | _ => .error (.py .typeError)

/-- Short-circuiting `any(p(x) for x in xs)`: stops at the first True, so
later elements that would raise are never evaluated. -/
def pyAny (p : PyVal → Except Err Bool) : List PyVal → Except Err Bool
  | [] => .ok false
  | c :: rest =>
    match p c with
    | .error e => .error e
    | .ok true => .ok true
    | .ok false => pyAny p rest

/-- A parsed Widevine PSSH box. Semantic fields are those used by
HashablePSSH for equality and hashing; raw keeps the underlying bytes so
byte-different but field-equal headers are distinguishable values. -/
structure PSSH where
  version : Nat
  flags : Nat
  system_id : String
  key_ids : List String
  raw : String
deriving Repr, DecidableEq

/-- The Widevine protection-system identifier (pywidevine
PSSH.SystemId.Widevine). -/
def widevineSystemId : String := "edef8ba9-79d6-4ace-a3c8-27dcd51d21ed"

/-- HashablePSSH.__eq__ from src/utils/passes/drm/utils.py: equality on
version, flags, system_id and key_ids only (raw bytes ignored). -/
def hashablePSSHEq (a b : PSSH) : Bool :=
  a.version == b.version && a.flags == b.flags &&
    a.system_id == b.system_id && a.key_ids == b.key_ids

/-- A Widevine content key (pywidevine Key): key id and key bytes, both as
hex strings. -/
structure ContentKey where
  kid : String
  key : String
deriving Repr, DecidableEq

/-- Modelled from the spec: DEFAULT_PSSH from
src/utils/passes/drm/constants.py is not present under src/; the spec
describes it as "a known well-publicized test header" compared for exact
(semantic-field) equality. Its concrete field values are opaque here. -/
def DEFAULT_PSSH : PSSH :=
  { version := 0, flags := 0, system_id := widevineSystemId,
    key_ids := ["defaultKeyId"], raw := "defaultPsshRaw" }

/-- Modelled from the spec: DEFAULT_KEY from
src/utils/passes/drm/constants.py is not present under src/; the spec
describes it as "a hardcoded fallback key" for the default test header. -/
def DEFAULT_KEY : ContentKey :=
  { kid := "defaultKeyId", key := "defaultKeyBytes" }

/-- Inner loop of PassesDRM.get_widevine_pssh over one adaptation set:
scan a list-valued ContentProtection for the first Widevine header.
Entries that are not dicts raise AttributeError via .get; a cenc:pssh
value that is present but not a string raises when fed to the PSSH
constructor. -/
def findWidevineInCP (parse : String → PSSH) : List PyVal → Except Err (Option PSSH)
  | [] => .ok Option.none
  | cp :: rest =>
    match pyGetE cp "cenc:pssh" with
    | .error e => .error e
    | .ok PyVal.none => findWidevineInCP parse rest
    | .ok (PyVal.str s) =>
      let pssh := parse s
      if pssh.system_id == widevineSystemId then .ok (some pssh)
      else findWidevineInCP parse rest
    | .ok _ => .error (.py .valueError)

/-- Outer loop of PassesDRM.get_widevine_pssh: iterate the adaptation
sets; adaptation sets whose ContentProtection is not a list are skipped
by the isinstance check; a non-dict adaptation set (for example a dict
key string when AdaptationSet is a single element) raises AttributeError
via .get. -/
def findWidevine (parse : String → PSSH) : List PyVal → Except Err (Option PSSH)
  | [] => .ok Option.none
  | a :: rest =>
    match pyGetE a "ContentProtection" with
    | .error e => .error e
    | .ok (PyVal.list cps) =>
      match findWidevineInCP parse cps with
      | .error e => .error e
      | .ok (some p) => .ok (some p)
      | .ok Option.none => findWidevine parse rest
    | .ok _ => findWidevine parse rest

/-- The MPD traversal of PassesDRM.get_widevine_pssh:
mpd_dict["MPD"]["Period"]["AdaptationSet"]. -/
def manifestAdaptationSets (mpd : PyVal) : Except Err PyVal :=
  match pyIndexE mpd "MPD" with
  | .error e => .error e
  | .ok m =>
    match pyIndexE m "Period" with
    | .error e => .error e
    | .ok p => pyIndexE p "AdaptationSet"

/-- Body of PassesDRM.get_widevine_pssh after the manifest has been
fetched and parsed by xmltodict: traverse MPD/Period/AdaptationSet and
return the first Widevine PSSH, None when none is found.
parse stands for the pywidevine PSSH constructor on a base64 string. -/
def get_widevine_pssh_body (parse : String → PSSH) (mpd : PyVal) :
    Except Err (Option PSSH) :=
  match manifestAdaptationSets mpd with
  | .error e => .error e
  | .ok asets =>
    match pyIterE asets with
    | .error e => .error e
    | .ok items => findWidevine parse items

/-- The media types of src/utils/passes/utils.py MediaType. -/
inductive MediaType where
  | image
  | video
  | pdf
  | gif
  | audio
deriving Repr, DecidableEq

/-- str(media_type) via EnumStrMixin: the enum member name lowercased. -/
def MediaType.toStr : MediaType → String
  | .image => "image"
  | .video => "video"
  | .pdf => "pdf"
  | .gif => "gif"
  | .audio => "audio"

/-- PostFilter from src/utils/passes/utils.py. Timestamps are modelled as
integers (only their ordering matters to the filter). -/
structure PostFilter where
  media_types : Option (List MediaType)
  accessible_only : Bool
  from_timestamp : Int
  to_timestamp : Int

/-- s.rstrip of the single character Z: drop all trailing Z characters. -/
def rstripZ (s : String) : String :=
  String.mk ((s.data.reverse.dropWhile (fun c => c == 'Z')).reverse)

/-- One conjunct of the media-type check:
content["contentType"] in [str(mt) for mt in media_types]. -/
def contentTypeMatches (mts : List MediaType) (content : PyVal) : Except Err Bool :=
  match pyIndexE content "contentType" with
  | .error e => .error e
  | .ok ct => .ok (mts.any (fun mt => pyEqStr ct mt.toStr))

/-- PostFilter.__call__ from src/utils/passes/utils.py. parseTime stands
for datetime.fromisoformat: none models a ValueError on an unparsable
string. The three checks run in source order; the generator expressions
over contents are lazy, so contents is only iterated by the checks that
actually run. -/
def postFilterCall (parseTime : String → Option Int) (f : PostFilter)
    (post : PyVal) : Except Err Bool :=
  match pyGetDefault post "contents" (PyVal.list [post]) with
  | .error e => .error e
  | .ok contents =>
    let mtStep : Except Err Bool :=
      match f.media_types with
      | Option.none => .ok false
      | some mts =>
        match pyIterE contents with
        | .error e => .error e
        | .ok items =>
          match pyAny (contentTypeMatches mts) items with
          | .error e => .error e
          | .ok b => .ok (!b)
    match mtStep with
    | .error e => .error e
    | .ok true => .ok false
    | .ok false =>
      let accStep : Except Err Bool :=
        if f.accessible_only then
          match pyIterE contents with
          | .error e => .error e
          | .ok items =>
            match pyAny (pyContainsE "signedContent") items with
            | .error e => .error e
            | .ok b => .ok (!b)
        else .ok false
      match accStep with
      | .error e => .error e
      | .ok true => .ok false
      | .ok false =>
        match pyGetDefault post "createdAt" PyVal.none with
        | .error e => .error e
        | .ok v1 =>
          let tsv : Except Err PyVal :=
            if pyTruthy v1 then .ok v1 else pyGetDefault post "sentAt" PyVal.none
          match tsv with
          | .error e => .error e
          | .ok (PyVal.str s) =>
            match parseTime (rstripZ s) with
            | Option.none => .error (.py .valueError)
            | some t =>
              .ok (decide (f.from_timestamp ≤ t) && decide (t ≤ f.to_timestamp))
          | .ok _ => .error (.py .attributeError)

/-- The retry classifier installed in PassesClient.__init__: retry exactly
on aiohttp ClientResponseError with a 5xx status. -/
def retryOnServerError (e : Err) : Bool :=
  match e with
  | .http status => decide (500 ≤ status) && decide (status ≤ 599)
  | _ => false

/-- tenacity AsyncRetrying with the classifier above and its default stop
(stop_never) and wait (wait_none): attempt i yields outcomes i; a
retryable error moves to attempt i+1, anything else is final. fuel bounds
how many attempts we observe: none means the call is still retrying after
fuel attempts. -/
def retryCall (outcomes : Nat → Except Err String) : Nat → Nat → Option (Except Err String)
  | 0, _ => Option.none
  | fuel + 1, i =>
    match outcomes i with
    | .ok a => some (.ok a)
    | .error e =>
      if retryOnServerError e then retryCall outcomes fuel (i + 1)
      else some (.error e)

/-- The retried call never completes: no finite number of attempts
reaches a final outcome. -/
def retryNeverCompletes (outcomes : Nat → Except Err String) : Prop :=
  ∀ fuel, retryCall outcomes fuel 0 = Option.none

/-- Media from src/utils/passes/utils.py (a pydantic value object). -/
structure Media where
  user_id : String
  signed_url : String
  content_id : String
  content_type : String
  extension : String
deriving Repr, DecidableEq

/-- Media.is_encrypted: true iff the signed URL contains the DRM path
segment. -/
def Media.is_encrypted (m : Media) : Bool := strContains m.signed_url "/drm2/"

/-- ImageType from src/utils/passes/utils.py with its value strings. -/
inductive ImageType where
  | small
  | medium
  | large
  | original
deriving Repr, DecidableEq

/-- The signedContent key for each image rendition. -/
def ImageType.value : ImageType → String
  | .small => "signedUrlSm"
  | .medium => "signedUrlMd"
  | .large => "signedUrlLg"
  | .original => "signedUrlDash"

/-- VideoType from src/utils/passes/utils.py with its value strings. -/
inductive VideoType where
  | large
  | original
deriving Repr, DecidableEq

/-- The signedContent key for each video rendition. -/
def VideoType.value : VideoType → String
  | .large => "signedUrl"
  | .original => "signedUrlDash"

/-- Characters matched by the [a-z0-9] class of the extension regex. -/
def isExtChar (c : Char) : Bool :=
  (decide ('a' ≤ c) && decide (c ≤ 'z')) || (decide ('0' ≤ c) && decide (c ≤ '9'))

/-- Greedy-with-backtracking attempt to complete a match of
([a-z0-9]+)? right after a dot: k counts candidate group lengths from
longest to shortest; the group must be followed by a question mark. -/
def tryExtGroup (rest : List Char) : Nat → Option (List Char)
  | 0 => Option.none
  | k + 1 =>
    if (rest.drop (k + 1)).head? == some '?' then some (rest.take (k + 1))
    else tryExtGroup rest k

/-- Attempt to match the extension regex at a position starting with a
dot: the group is the longest run of [a-z0-9] after the dot that is
immediately followed by a question mark. -/
def extGroupAt (rest : List Char) : Option (List Char) :=
  tryExtGroup rest (rest.takeWhile isExtChar).length

/-- re.search for the pattern: a dot, a nonempty group of [a-z0-9], then
a question mark. Scans positions left to right and returns group 1 of the
leftmost match. -/
def reSearchExtChars : List Char → Option (List Char)
  | [] => Option.none
  | c :: rest =>
    if c == '.' then
      match extGroupAt rest with
      | some g => some g
      | Option.none => reSearchExtChars rest
    else reSearchExtChars rest

/-- String-level wrapper for the extension regex search. -/
def reSearchExtension (s : String) : Option String :=
  (reSearchExtChars s.data).map String.mk

/-- Pydantic coercion of a dynamic value into a required string field: a
non-string raises a validation error. -/
def toStrE (v : PyVal) : Except Err String :=
  match v with
  | .str s => .ok s
  | _ => .error (.py .valueError)

/-- Processing of one content item by PassesClient.get_media: returns
none for items skipped by the inclusion policy or missing signedContent,
some media otherwise, and propagates the Python exceptions the source
can raise (KeyError on missing contentType or ids, AttributeError or
TypeError during extension inference). -/
def getMediaContent (images videos : Bool) (image_type : ImageType)
    (video_type : VideoType) (content : PyVal) : Except Err (Option Media) :=
  match pyIndexE content "contentType" with
  | .error e => .error e
  | .ok ct =>
    if (!images && pyEqStr ct "image") || (!videos && pyEqStr ct "video") then
      .ok Option.none
    else
      match pyGetE content "signedContent" with
      | .error e => .error e
      | .ok PyVal.none => .ok Option.none
      | .ok sc =>
        let build (su : PyVal) (ext : String) : Except Err (Option Media) :=
          match pyIndexE content "userId" with
          | .error e => .error e
          | .ok uid =>
            match pyIndexE content "contentId" with
            | .error e => .error e
            | .ok cid =>
              match toStrE uid, toStrE cid, toStrE su with
              | .ok u, .ok c, .ok url =>
                .ok (some { user_id := u, signed_url := url, content_id := c,
                            content_type := (match ct with | .str s => s | _ => ""),
                            extension := ext })
              | .error e, _, _ => .error e
              | _, .error e, _ => .error e
              | _, _, .error e => .error e
        if pyEqStr ct "video" then
          match pyGetE sc video_type.value with
          | .error e => .error e
          | .ok a =>
            match pyGetE sc VideoType.large.value with
            | .error e => .error e
            | .ok b =>
              match pyGetE sc "signedUrl" with
              | .error e => .error e
              | .ok c =>
                let su := pyOr a (pyOr b c)
                match pyGetE content "extension" with
                | .error e => .error e
                | .ok extv =>
                  match (if pyTruthy extv then toStrE extv else .ok "mp4") with
                  | .error e => .error e
                  | .ok ext => build su ext
        else
          match pyGetE sc image_type.value with
          | .error e => .error e
          | .ok su0 =>
            match pyGetE sc ImageType.large.value with
            | .error e => .error e
            | .ok f1 =>
              match pyGetE sc "signedUrl" with
              | .error e => .error e
              | .ok f2 =>
                let fallback := pyOr f1 f2
                match pyGetE content "extension" with
                | .error e => .error e
                | .ok extv =>
                  let extStep : Except Err String :=
                    if pyTruthy extv then toStrE extv
                    else
                      match fallback with
                      | .str fs =>
                        match reSearchExtension fs with
                        | some g => .ok g
                        | Option.none => .error (.py .attributeError)
                      | _ => .error (.py .typeError)
                  match extStep with
                  | .error e => .error e
                  | .ok ext => build (pyOr su0 fallback) ext

/-- Loop of PassesClient.get_media over the content items, preserving
source order. -/
def getMediaLoop (images videos : Bool) (image_type : ImageType)
    (video_type : VideoType) : List PyVal → Except Err (List Media)
  | [] => .ok []
  | c :: rest =>
    match getMediaContent images videos image_type video_type c with
    | .error e => .error e
    | .ok Option.none => getMediaLoop images videos image_type video_type rest
    | .ok (some m) =>
      match getMediaLoop images videos image_type video_type rest with
      | .error e => .error e
      | .ok ms => .ok (m :: ms)

/-- PassesClient.get_media from src/utils/passes/client.py: contents is
post.get of the contents key defaulting to a one-element list holding the
post itself; each surviving content item yields one Media. -/
def get_media (images videos : Bool) (image_type : ImageType)
    (video_type : VideoType) (post : PyVal) : Except Err (List Media) :=
  match pyGetDefault post "contents" (PyVal.list [post]) with
  | .error e => .error e
  | .ok contents =>
    match pyIterE contents with
    | .error e => .error e
    | .ok items => getMediaLoop images videos image_type video_type items

/-- The final path component of a path string (after the last slash). -/
def pathName (p : String) : String :=
  String.mk ((p.data.reverse.takeWhile (fun c => c != '/')).reverse)

/-- The parent of a path string (before the last slash). -/
def pathParent (p : String) : String :=
  String.mk (((p.data.reverse.dropWhile (fun c => c != '/')).drop 1).reverse)

/-- The stem of a file name in the pathlib sense: everything before the
last dot, except that a name with no dot, a leading dot (hidden file) or
a trailing dot has no suffix and is its own stem. -/
def nameStemChars (n : List Char) : List Char :=
  let afterRev := n.reverse.takeWhile (fun c => c != '.')
  if afterRev.length == n.length then n
  else
    let stemLen := n.length - afterRev.length - 1
    if stemLen == 0 || afterRev.isEmpty then n
    else n.take stemLen

/-- Path.with_suffix: replace the suffix of the final component. -/
def withSuffix (p : String) (suf : String) : String :=
  pathParent p ++ "/" ++ String.mk (nameStemChars (pathName p).data) ++ suf

/-- Whether a file name matches the glob pattern of one literal stem
followed by dot, star, dot, star: the name starts with the stem and a
dot, and the remainder contains at least one more dot (glob stars match
any run of characters, including the empty run). -/
def globMatchesSeg (cid : String) (name : String) : Bool :=
  (cid.data ++ ['.']).isPrefixOf name.data &&
    (name.data.drop (cid.data.length + 1)).any (fun c => c == '.')

/-- Contents of a file in the modelled filesystem, tracking how it was
produced: an encrypted segment fetched by yt-dlp, a decrypted segment
produced by the packager, the output of a completed ffmpeg run over the
data of its inputs, the half-written output left by a failed tool, or
the body of a plain HTTP download. -/
inductive FileData where
  | enc (name : String)
  | dec (name : String)
  | ffout (inputs : List FileData)
  | halfWritten
  | plain (body : String)

/-- The filesystem: an association list from absolute path strings to
file contents, with unique keys. -/
abbrev FS := List (String × FileData)

/-- Lookup of a file by path. -/
def fsLookup (fs : FS) (p : String) : Option FileData :=
  (fs.find? (fun e => e.1 == p)).map (fun e => e.2)

/-- Path.exists. -/
def fsExists (fs : FS) (p : String) : Bool :=
  fs.any (fun e => e.1 == p)

/-- Write a file: overwrite the binding of an existing path, append a
new binding otherwise. -/
def fsWrite : FS → String → FileData → FS
  | [], p, d => [(p, d)]
  | e :: rest, p, d =>
    if e.1 == p then (p, d) :: rest else e :: fsWrite rest p d

/-- Path.unlink / deletion of one path. -/
def fsDelete (fs : FS) (p : String) : FS :=
  fs.filter (fun e => e.1 != p)

/-- Path.glob over a directory for the segment pattern of a content id:
the existing files in that directory whose names match, in filesystem
order. -/
def globSegs (fs : FS) (dir : String) (cid : String) : List String :=
  (fs.filter (fun e => pathParent e.1 == dir && globMatchesSeg cid (pathName e.1))).map
    (fun e => e.1)

/-- The outcome of one external tool invocation (Shaka Packager or
ffmpeg): success, failure without having produced an output file, or
failure after partially writing the output file. -/
inductive ToolOutcome where
  | ok
  | failNoOutput
  | failHalfOutput
deriving Repr, DecidableEq

/-- Oracles describing the external world for one run: the profile
lookup answers, the resolved result of the retried plain GET, the
segment files yt-dlp writes, the manifest fetch, the pywidevine PSSH
constructor, the license exchange, whether the Shaka Packager binary is
on the host, and the outcome of each packager and ffmpeg invocation
(indexed by invocation count). -/
structure Oracles where
  usernameResult : String → Except Err (Option String)
  plainGetResult : Except Err String
  ytdlpResult : Except Err (List String)
  manifest : String → Except Err PyVal
  parsePSSH : String → PSSH
  license : PSSH → Except Err (List ContentKey)
  packagerFound : Bool
  decryptOutcome : Nat → ToolOutcome
  ffmpegOutcome : Nat → ToolOutcome

/-- Observable operations of a run, used to count network, download,
decryption and callback activity. -/
inductive Op where
  | profileLookup
  | plainGet
  | ytdlpRun
  | manifestFetch
  | licenseRequest
  | decryptRun
  | ffmpegRun
  | callback
deriving Repr, DecidableEq

/-- The mutable state of one PassesClient: the filesystem, the
username-to-id mapping dict, the alru cache of get_username (keyed by
user id), and the alru caches of the two DRM lookups. -/
structure ClientState where
  fs : FS
  usernameMapping : List (String × String)
  getUsernameCache : List (String × Option String)
  psshCache : List (String × Option PSSH)
  keyCache : List (PSSH × Option ContentKey)

/-- State threaded through a run: the client state, the log of observable
operations, and the invocation counters indexing the tool oracles. -/
structure RunState where
  cs : ClientState
  ops : List Op
  decryptCalls : Nat
  ffmpegCalls : Nat

/-- Lookup in the alru cache of get_username. -/
def usernameCacheLookup (cs : ClientState) (user_id : String) :
    Option (Option String) :=
  (cs.getUsernameCache.find? (fun e => e.1 == user_id)).map (fun e => e.2)

/-- Lookup in the alru cache of get_widevine_pssh. -/
def psshCacheLookup (cs : ClientState) (url : String) : Option (Option PSSH) :=
  (cs.psshCache.find? (fun e => e.1 == url)).map (fun e => e.2)

/-- Lookup in the alru cache of get_decryption_key, keyed by the
HashablePSSH equality. -/
def keyCacheLookup (cs : ClientState) (pssh : PSSH) :
    Option (Option ContentKey) :=
  (cs.keyCache.find? (fun e => hashablePSSHEq e.1 pssh)).map (fun e => e.2)

/-- PassesClient.get_username: the alru cache is consulted first; on a
miss the body checks the inverse of the username mapping (last binding
wins, as in the dict comprehension) and otherwise performs the network
profile lookup, caching the result. Exceptions are not cached. -/
def get_username (ora : Oracles) (user_id : String) (s : RunState) :
    Except Err (Option String) × RunState :=
  match usernameCacheLookup s.cs user_id with
  | some r => (.ok r, s)
  | Option.none =>
    match s.cs.usernameMapping.reverse.find? (fun e => e.2 == user_id) with
    | some e =>
      (.ok (some e.1),
        { s with cs := { s.cs with
            getUsernameCache := s.cs.getUsernameCache ++ [(user_id, some e.1)] } })
    | Option.none =>
      let s := { s with ops := s.ops ++ [Op.profileLookup] }
      match ora.usernameResult user_id with
      | .error e => (.error e, s)
      | .ok Option.none =>
        (.ok Option.none,
          { s with cs := { s.cs with
              getUsernameCache := s.cs.getUsernameCache ++ [(user_id, Option.none)] } })
      | .ok (some uname) =>
        (.ok (some uname),
          { s with cs := { s.cs with
              usernameMapping := s.cs.usernameMapping ++ [(uname, user_id)],
              getUsernameCache := s.cs.getUsernameCache ++ [(user_id, some uname)] } })

/-- PassesDRM.get_widevine_pssh with its alru cache: a hit returns the
cached result without fetching; a miss fetches the manifest, parses it,
and caches a successful result. Exceptions are not cached. -/
def get_widevine_pssh (ora : Oracles) (url : String) (s : RunState) :
    Except Err (Option PSSH) × RunState :=
  match psshCacheLookup s.cs url with
  | some r => (.ok r, s)
  | Option.none =>
    let s := { s with ops := s.ops ++ [Op.manifestFetch] }
    match ora.manifest url with
    | .error e => (.error e, s)
    | .ok mpd =>
      match get_widevine_pssh_body ora.parsePSSH mpd with
      | .error e => (.error e, s)
      | .ok r =>
        (.ok r, { s with cs := { s.cs with psshCache := s.cs.psshCache ++ [(url, r)] } })

/-- PassesDRM.get_decryption_key with its alru cache (keyed by
HashablePSSH equality): a hit returns the cached key; on a miss a header
equal to the default test header yields the hardcoded key without any
network request, any other header performs the license exchange and
yields the first issued key, or none when the license carried no keys. -/
def get_decryption_key (ora : Oracles) (pssh : PSSH) (s : RunState) :
    Except Err (Option ContentKey) × RunState :=
  match keyCacheLookup s.cs pssh with
  | some r => (.ok r, s)
  | Option.none =>
    if hashablePSSHEq pssh DEFAULT_PSSH then
      (.ok (some DEFAULT_KEY),
        { s with cs := { s.cs with keyCache := s.cs.keyCache ++ [(pssh, some DEFAULT_KEY)] } })
    else
      let s := { s with ops := s.ops ++ [Op.licenseRequest] }
      match ora.license pssh with
      | .error e => (.error e, s)
      | .ok keys =>
        (.ok keys.head?,
          { s with cs := { s.cs with keyCache := s.cs.keyCache ++ [(pssh, keys.head?)] } })

/-- PassesDRM.decrypt_file: probe for the packager binary (FileNotFound
when absent), run it into a private temporary directory, then
os.replace the encrypted file with the produced output. The exit code of
the subprocess is never consulted: a failure that produced no output
file makes os.replace raise FileNotFoundError, while a failure that
left a half-written output file silently replaces the segment with it. -/
def decrypt_file (ora : Oracles) (file : String) (_key : ContentKey) (s : RunState) :
    Except Err Unit × RunState :=
  if !ora.packagerFound then
    (.error (.fileNotFound "Shaka Packager binary not found."), s)
  else
    let idx := s.decryptCalls
    let s := { s with decryptCalls := idx + 1, ops := s.ops ++ [Op.decryptRun] }
    match ora.decryptOutcome idx with
    | .ok =>
      (.ok (), { s with cs := { s.cs with fs := fsWrite s.cs.fs file (.dec (pathName file)) } })
    | .failNoOutput =>
      (.error (.fileNotFound "os.replace: decrypted output missing"), s)
    | .failHalfOutput =>
      (.ok (), { s with cs := { s.cs with fs := fsWrite s.cs.fs file .halfWritten } })

/-- One ffmpeg execution with the overwrite option: inputs are read, the
output is written at its final path (no temporary file). A missing input
fails the run before the output is opened; a failing run may leave a
half-written output file behind. -/
def ffmpegExec (ora : Oracles) (inputs : List String) (output : String) (s : RunState) :
    Except Err Unit × RunState :=
  let idx := s.ffmpegCalls
  let s := { s with ffmpegCalls := idx + 1, ops := s.ops ++ [Op.ffmpegRun] }
  if inputs.any (fun p => !fsExists s.cs.fs p) then (.error .toolFailed, s)
  else
    match ora.ffmpegOutcome idx with
    | .ok =>
      (.ok (), { s with cs := { s.cs with
          fs := fsWrite s.cs.fs output (.ffout (inputs.filterMap (fsLookup s.cs.fs))) } })
    | .failNoOutput => (.error .toolFailed, s)
    | .failHalfOutput =>
      (.error .toolFailed, { s with cs := { s.cs with fs := fsWrite s.cs.fs output .halfWritten } })

/-- The per-segment loop of PassesClient._decrypt_and_merge_media: for
each globbed file obtain the PSSH (MediaDecryptionError when absent),
obtain the key (MediaDecryptionError when absent), decrypt the file in
place, and accumulate it as an ffmpeg input, in order. -/
def decryptLoop (ora : Oracles) (media : Media) : List String → RunState →
    Except Err (List String) × RunState
  | [], s => (.ok [], s)
  | f :: rest, s =>
    match get_widevine_pssh ora media.signed_url s with
    | (.error e, s) => (.error e, s)
    | (.ok Option.none, s) =>
      (.error (.mediaDecryption "Widevine PSSH not found in manifest."), s)
    | (.ok (some pssh), s) =>
      match get_decryption_key ora pssh s with
      | (.error e, s) => (.error e, s)
      | (.ok Option.none, s) =>
        (.error (.mediaDecryption "Decryption key could not be obtained."), s)
      | (.ok (some key), s) =>
        match decrypt_file ora f key s with
        | (.error e, s) => (.error e, s)
        | (.ok _, s) =>
          match decryptLoop ora media rest s with
          | (.error e, s) => (.error e, s)
          | (.ok others, s) => (.ok (f :: others), s)

/-- Delete every file in the directory of a media path whose name
matches the segment glob of the content id (the two unlink loops of
_decrypt_and_merge_media). -/
def deleteSegs (media_path : String) (cid : String) (s : RunState) : RunState :=
  { s with cs := { s.cs with
      fs := (globSegs s.cs.fs (pathParent media_path) cid).foldl fsDelete s.cs.fs } }

/-- Tail of PassesClient._decrypt_and_merge_media after the segment
unlink loop: video media is done at the media path; other media runs a
second ffmpeg pass extracting one frame into the extension-correct path
and deletes the intermediate container. -/
def finishStep (ora : Oracles) (media : Media) (media_path : String)
    (s : RunState) : Except Err String × RunState :=
  if media.content_type == "video" then (.ok media_path, s)
  else
    match ffmpegExec ora [media_path] (withSuffix media_path ("." ++ media.extension)) s with
    | (.error e, s) => (.error e, s)
    | (.ok _, s) =>
      (.ok (withSuffix media_path ("." ++ media.extension)),
        { s with cs := { s.cs with fs := fsDelete s.cs.fs media_path } })

/-- Middle of PassesClient._decrypt_and_merge_media: remux the decrypted
segments with ffmpeg directly into the media path (no temporary file),
then delete the segment files and finish. -/
def mergeStep (ora : Oracles) (media : Media) (media_path : String)
    (inputs : List String) (s : RunState) : Except Err String × RunState :=
  match ffmpegExec ora inputs media_path s with
  | (.error e, s) => (.error e, s)
  | (.ok _, s) =>
    finishStep ora media media_path (deleteSegs media_path media.content_id s)

/-- PassesClient._decrypt_and_merge_media: decrypt every sibling segment
of the content id in place, then remux and finish. -/
def decrypt_and_merge_media (ora : Oracles) (media : Media) (media_path : String)
    (s : RunState) : Except Err String × RunState :=
  match decryptLoop ora media (globSegs s.cs.fs (pathParent media_path) media.content_id) s with
  | (.error e, s) => (.error e, s)
  | (.ok inputs, s) => mergeStep ora media media_path inputs s

/-- Invoke the completion callback when one was supplied. -/
def doCallback (hasCallback : Bool) (s : RunState) : RunState :=
  if hasCallback then { s with ops := s.ops ++ [Op.callback] } else s

/-- The canonical target path computed by download_media from the output
directory and the descriptor: video normalizes to the mp4 container,
anything else keeps the descriptor extension. -/
def targetPath (output_dir : String) (media : Media) : String :=
  let base := output_dir ++ "/" ++ media.content_id
  if media.content_type == "video" then withSuffix base ".mp4"
  else withSuffix base ("." ++ media.extension)

/-- The body of PassesClient.download_media after creator-folder
resolution: compute the target path, short-circuit when it exists and
force is off, otherwise plain-download unencrypted non-video media via
the retried GET, or fetch segments with yt-dlp and, for encrypted media,
decrypt and merge them. The completion callback runs once on each
successful exit and never on an exception. -/
def download_media_core (ora : Oracles) (media : Media) (output_dir : String)
    (force_download hasCallback : Bool) (s : RunState) :
    Except Err String × RunState :=
  if fsExists s.cs.fs (targetPath output_dir media) && !force_download then
    (.ok (targetPath output_dir media), doCallback hasCallback s)
  else
    if media.content_type != "video" && !media.is_encrypted then
      match ora.plainGetResult with
      | .error e => (.error e, { s with ops := s.ops ++ [Op.plainGet] })
      | .ok body =>
        (.ok (targetPath output_dir media),
          doCallback hasCallback
            { s with
                ops := s.ops ++ [Op.plainGet],
                cs := { s.cs with
                  fs := fsWrite s.cs.fs (targetPath output_dir media) (.plain body) } })
    else
      match ora.ytdlpResult with
      | .error e => (.error e, { s with ops := s.ops ++ [Op.ytdlpRun] })
      | .ok names =>
        let media_path :=
          if media.content_type != "video" then
            withSuffix (targetPath output_dir media) ".mp4"
          else targetPath output_dir media
        let s1 : RunState :=
          { s with
              ops := s.ops ++ [Op.ytdlpRun],
              cs := { s.cs with
                fs := names.foldl
                  (fun fs n => fsWrite fs (pathParent media_path ++ "/" ++ n) (.enc n))
                  s.cs.fs } }
        if media.is_encrypted then
          match decrypt_and_merge_media ora media media_path s1 with
          | (.error e, s) => (.error e, s)
          | (.ok final, s) => (.ok final, doCallback hasCallback s)
        else (.ok media_path, doCallback hasCallback s1)

/-- PassesClient.download_media: resolve the creator folder when asked
(a failed resolution raises TypeError via the path join with None), then
run the download body on the resolved output directory. -/
def download_media (ora : Oracles) (media : Media) (output_dir0 : String)
    (force_download creator_folder hasCallback : Bool) (s : RunState) :
    Except Err String × RunState :=
  if creator_folder then
    match get_username ora media.user_id s with
    | (.error e, s) => (.error e, s)
    | (.ok Option.none, s) => (.error (.py .typeError), s)
    | (.ok (some u), s) =>
      download_media_core ora media (output_dir0 ++ "/" ++ u) force_download
        hasCallback s
  else download_media_core ora media output_dir0 force_download hasCallback s

/-- The pure outcome of a cold protection-header lookup for a URL:
fetch the manifest and parse it. -/
def psshOf (ora : Oracles) (url : String) : Except Err (Option PSSH) :=
  match ora.manifest url with
  | .error e => .error e
  | .ok mpd => get_widevine_pssh_body ora.parsePSSH mpd

/-- The pure outcome of a cold content-key lookup for a header. -/
def keyOf (ora : Oracles) (pssh : PSSH) : Except Err (Option ContentKey) :=
  if hashablePSSHEq pssh DEFAULT_PSSH then .ok (some DEFAULT_KEY)
  else
    match ora.license pssh with
    | .error e => .error e
    | .ok keys => .ok keys.head?

/-- The protection header for a URL resolves to P from this client state:
either it is already cached, or it is uncached and a cold lookup yields
it. -/
def psshReady (ora : Oracles) (url : String) (P : PSSH) (cs : ClientState) : Prop :=
  psshCacheLookup cs url = some (some P) ∨
    (psshCacheLookup cs url = Option.none ∧ psshOf ora url = .ok (some P))

/-- The content key for a header resolves to K from this client state. -/
def keyReady (ora : Oracles) (P : PSSH) (K : ContentKey) (cs : ClientState) : Prop :=
  keyCacheLookup cs P = some (some K) ∨
    (keyCacheLookup cs P = Option.none ∧ keyOf ora P = .ok (some K))

/-- The final artifact path of _decrypt_and_merge_media: the media path
itself for video, the extension-correct frame path otherwise. -/
def finalOutputPath (media : Media) (media_path : String) : String :=
  if media.content_type == "video" then media_path
  else withSuffix media_path ("." ++ media.extension)

/-- The correct merged artifact: the ffmpeg output over the decrypted
versions of the given segment files. -/
def decryptedArtifact (files : List String) : FileData :=
  FileData.ffout (files.map (fun f => FileData.dec (pathName f)))

/-- A ContentProtection entry whose shape the manifest scanner handles
without raising: a dict whose cenc:pssh value, when present, is a string
or None. -/
def goodCPEntry (cp : PyVal) : Bool :=
  match cp with
  | .dict d =>
    match dictLookup d "cenc:pssh" with
    | Option.none => true
    | some PyVal.none => true
    | some (PyVal.str _) => true
    | some _ => false
  | _ => false

/-- An adaptation set the scanner handles without raising: a dict whose
ContentProtection, when it is a list, contains only good entries
(non-list ContentProtection values are skipped, so any shape is fine
there). -/
def goodAdaptationSet (a : PyVal) : Bool :=
  match a with
  | .dict d =>
    match dictLookup d "ContentProtection" with
    | some (PyVal.list cps) => cps.all goodCPEntry
    | _ => true
  | _ => false

/-- Written from the claim: the first Widevine header among the
list-valued ContentProtection declarations of the adaptation sets, in
document order (the reference the scanner is compared against). -/
def firstWidevineCP (parse : String → PSSH) : List PyVal → Option PSSH
  | [] => Option.none
  | cp :: rest =>
    match cp with
    | .dict d =>
      match dictLookup d "cenc:pssh" with
      | some (PyVal.str s) =>
        let p := parse s
        if p.system_id == widevineSystemId then some p
        else firstWidevineCP parse rest
      | _ => firstWidevineCP parse rest
    | _ => firstWidevineCP parse rest

/-- Written from the claim: first Widevine header over the adaptation
sets, considering only list-valued ContentProtection declarations. -/
def firstWidevineManifest (parse : String → PSSH) : List PyVal → Option PSSH
  | [] => Option.none
  | a :: rest =>
    match a with
    | .dict d =>
      match dictLookup d "ContentProtection" with
      | some (PyVal.list cps) =>
        match firstWidevineCP parse cps with
        | some p => some p
        | Option.none => firstWidevineManifest parse rest
      | _ => firstWidevineManifest parse rest
    | _ => firstWidevineManifest parse rest

/-- The resolvable timestamp of a post record, following the source
steps: createdAt or sentAt (first truthy), trailing Z characters
stripped, parsed as an ISO timestamp. -/
def resolvedTimestamp (parseTime : String → Option Int) (post : PyVal) : Option Int :=
  match post with
  | .dict d =>
    let v1 := (dictLookup d "createdAt").getD PyVal.none
    let tsv := if pyTruthy v1 then v1 else (dictLookup d "sentAt").getD PyVal.none
    match tsv with
    | .str s => parseTime (rstripZ s)
    | _ => Option.none
  | _ => Option.none

/-- Fixture: a PSSH parser mapping every base64 string to a Widevine
header carrying that string as raw bytes. -/
def fixParse : String → PSSH := fun s =>
  { version := 1, flags := 0, system_id := widevineSystemId,
    key_ids := ["k1"], raw := s }

/-- Fixture: the Widevine header produced by fixParse on the string b64. -/
def fixWvP : PSSH := fixParse "b64"

/-- Fixture: a content key issued by the fixture license server. -/
def fixKey : ContentKey := { kid := "k1", key := "deadbeef" }

/-- Fixture: a manifest whose single AdaptationSet is one element (a
dict), not a list, containing a list-valued ContentProtection with a
Widevine header. -/
def fixMpdSingleASet : PyVal :=
  PyVal.dict [("MPD", PyVal.dict [("Period", PyVal.dict [("AdaptationSet",
    PyVal.dict [("ContentProtection",
      PyVal.list [PyVal.dict [("cenc:pssh", PyVal.str "b64")]])])])])]

/-- Fixture: a manifest whose AdaptationSet is a list of one dict whose
ContentProtection is a single element (a dict), not a list, containing a
Widevine header. -/
def fixMpdSingleCP : PyVal :=
  PyVal.dict [("MPD", PyVal.dict [("Period", PyVal.dict [("AdaptationSet",
    PyVal.list [PyVal.dict [("ContentProtection",
      PyVal.dict [("cenc:pssh", PyVal.str "b64")])]])])])]

/-- Fixture: a manifest in the fully list-shaped form: AdaptationSet is
a list and its ContentProtection is a list with a Widevine entry. -/
def fixMpdListShaped : PyVal :=
  PyVal.dict [("MPD", PyVal.dict [("Period", PyVal.dict [("AdaptationSet",
    PyVal.list [PyVal.dict [("ContentProtection",
      PyVal.list [PyVal.dict [("cenc:pssh", PyVal.str "b64")]])]])])])]

/-- Fixture: a timestamp parser for the tests, mapping the stripped
string 2024 to the instant 5. -/
def fixParseTime : String → Option Int :=
  fun s => if s == "2024" then some 5 else Option.none

/-- Fixture: a post carrying an image content item and the timestamp
string 2024Z. -/
def fixPost : PyVal :=
  PyVal.dict [("contentType", PyVal.str "image"), ("createdAt", PyVal.str "2024Z")]

/-- Fixture: a post with a content item but neither createdAt nor
sentAt. -/
def fixPostNoTs : PyVal := PyVal.dict [("contentType", PyVal.str "image")]

/-- Fixture: a filter admitting only video posts over the window from 0
to 10. -/
def fixFilterVideo : PostFilter :=
  { media_types := some [MediaType.video], accessible_only := false,
    from_timestamp := 0, to_timestamp := 10 }

/-- Fixture: a filter admitting image posts over the window from 0 to
10. -/
def fixFilterImage : PostFilter :=
  { media_types := some [MediaType.image], accessible_only := false,
    from_timestamp := 0, to_timestamp := 10 }

/-- Fixture: a filter with all defaults over the window from 0 to 10. -/
def fixFilterDefault : PostFilter :=
  { media_types := Option.none, accessible_only := false,
    from_timestamp := 0, to_timestamp := 10 }

/-- Fixture: an unencrypted image descriptor. -/
def fixMediaImg : Media :=
  { user_id := "u1", signed_url := "https://cdn/x?y", content_id := "c1",
    content_type := "image", extension := "jpg" }

/-- Fixture: an encrypted video descriptor pointing at a DRM manifest. -/
def fixMediaVid : Media :=
  { user_id := "u1", signed_url := "https://x/drm2/m.mpd", content_id := "c1",
    content_type := "video", extension := "mp4" }

/-- Fixture: an encrypted image descriptor pointing at a DRM manifest. -/
def fixMediaImgEnc : Media :=
  { user_id := "u1", signed_url := "https://x/drm2/m.mpd", content_id := "c1",
    content_type := "image", extension := "jpg" }

/-- Fixture: a fully successful external world; the manifest carries the
fixture Widevine header, the license server issues the fixture key, and
yt-dlp fetches two track segments. -/
def fixOraOk : Oracles :=
  { usernameResult := fun _ => .ok (some "alice"),
    plainGetResult := .ok "body",
    ytdlpResult := .ok ["c1.f1.mp4", "c1.f2.mp4"],
    manifest := fun _ => .ok fixMpdListShaped,
    parsePSSH := fixParse,
    license := fun _ => .ok [fixKey],
    packagerFound := true,
    decryptOutcome := fun _ => ToolOutcome.ok,
    ffmpegOutcome := fun _ => ToolOutcome.ok }

/-- Fixture: as fixOraOk but every ffmpeg invocation fails after
partially writing its output. -/
def fixOraFfmpegHalf : Oracles :=
  { fixOraOk with ffmpegOutcome := fun _ => ToolOutcome.failHalfOutput }

/-- Fixture: as fixOraOk but every packager invocation fails without
producing an output file. -/
def fixOraDecryptFail : Oracles :=
  { fixOraOk with decryptOutcome := fun _ => ToolOutcome.failNoOutput }

/-- Fixture: the empty client state. -/
def fixEmptyCS : ClientState :=
  { fs := [], usernameMapping := [], getUsernameCache := [],
    psshCache := [], keyCache := [] }

/-- Fixture: a fresh run state over the empty client state. -/
def fixEmptyRS : RunState :=
  { cs := fixEmptyCS, ops := [], decryptCalls := 0, ffmpegCalls := 0 }

/-- Fixture: a run state whose filesystem already holds the target of
the fixture image descriptor under the creator folder of alice. -/
def fixRSTargetExists : RunState :=
  { cs := { fixEmptyCS with fs := [("out/alice/c1.jpg", FileData.plain "old")] },
    ops := [], decryptCalls := 0, ffmpegCalls := 0 }

/-- Fixture: a run state whose filesystem holds the target directly
under the output directory (no creator folder). -/
def fixRSTargetExistsFlat : RunState :=
  { cs := { fixEmptyCS with fs := [("out/c1.jpg", FileData.plain "old")] },
    ops := [], decryptCalls := 0, ffmpegCalls := 0 }

/-- Fixture: a run state holding two downloaded encrypted segments of
the fixture video descriptor. -/
def fixRSSegs : RunState :=
  { cs := { fixEmptyCS with
      fs := [("out/c1.f1.mp4", FileData.enc "c1.f1.mp4"),
             ("out/c1.f2.mp4", FileData.enc "c1.f2.mp4")] },
    ops := [], decryptCalls := 0, ffmpegCalls := 0 }

/-! Theorems. Helper lemmas come first; each claim has exactly one named
theorem (with a counterexample and witness where required). -/

/-- The retry loop on a constant 5xx error never reaches a final
outcome, whatever the starting attempt index. -/
lemma retryCall_const5xx_none (status : Nat) (h5 : 500 ≤ status) (h6 : status ≤ 599) :
    ∀ fuel i, retryCall (fun _ => Except.error (Err.http status)) fuel i = Option.none := by
  intro fuel
  induction fuel with
  | zero => intro i; rfl
  | succ n ih =>
    intro i
    simp only [retryCall, retryOnServerError, h5, h6]
    exact ih (i + 1)

/-- C6 counterexample: the claim asserts a bounded number of retries,
but the configured AsyncRetrying has no stop condition: against a server
that answers 503 on every attempt, the retried GET never completes — no
finite number of attempts reaches a final outcome. -/
theorem plain_retry_unbounded :
    retryNeverCompletes (fun _ => Except.error (Err.http 503)) := by
  intro fuel
  exact retryCall_const5xx_none 503 (by omega) (by omega) fuel 0

/-- C6 (amended): a plain-download GET is retried exactly when the
failure is an HTTP response error with a 5xx status; any other error
(4xx included) propagates immediately on the first attempt without any
retry; but the number of retries is unbounded — under persistent 5xx
failures the call never completes. -/
theorem plain_retry_policy_amended (status : Nat) (h5 : 500 ≤ status)
    (h6 : status ≤ 599) (outcomes : Nat → Except Err String) (e : Err)
    (he : retryOnServerError e = false) (h0 : outcomes 0 = Except.error e) :
    (∀ fuel, retryCall outcomes (fuel + 1) 0 = some (Except.error e)) ∧
      retryOnServerError (Err.http status) = true ∧
      retryNeverCompletes (fun _ => Except.error (Err.http status)) := by
  refine ⟨fun fuel => ?_, ?_, fun fuel => retryCall_const5xx_none status h5 h6 fuel 0⟩
  · simp [retryCall, h0, he]
  · simp [retryOnServerError, h5, h6]

/-- C6 witness: the amended retry-policy theorem instantiated at a 404
first outcome and the 503 server. -/
theorem plain_retry_policy_amended_witness :
    (∀ fuel, retryCall (fun _ => Except.error (Err.http 404)) (fuel + 1) 0 =
        some (Except.error (Err.http 404))) ∧
      retryOnServerError (Err.http 503) = true ∧
      retryNeverCompletes (fun _ => Except.error (Err.http 503)) :=
  plain_retry_policy_amended 503 (by omega) (by omega)
    (fun _ => Except.error (Err.http 404)) (Err.http 404) (by decide) rfl

/-- C10: get_media is not total on image items: on a post whose image
content item has a signedContent with only the ORIGINAL rendition key
(neither the LARGE key nor the generic signedUrl) and no extension
field, extension inference calls re.search on None and the call raises
TypeError instead of skipping the item or returning a list. -/
theorem get_media_raises_on_missing_fallback :
    get_media true true ImageType.original VideoType.original
      (PyVal.dict [("contentType", PyVal.str "image"), ("userId", PyVal.str "u1"),
        ("contentId", PyVal.str "c1"),
        ("signedContent", PyVal.dict [("signedUrlDash", PyVal.str "https://cdn/x?y")])]) =
      Except.error (Err.py PyErr.typeError) := by
  rfl

/-- C9 counterexample: both non-list shapes the claim requires are not
supported. With a single (non-list) AdaptationSet the scanner iterates
the keys of the dict and calls .get on a string, raising AttributeError
even though a Widevine header is present; with a single (non-list)
ContentProtection the isinstance check skips the declaration and the
scanner returns None instead of the present Widevine header. -/
theorem get_widevine_pssh_single_shapes_unsupported :
    get_widevine_pssh_body fixParse fixMpdSingleASet =
        Except.error (Err.py PyErr.attributeError) ∧
      get_widevine_pssh_body fixParse fixMpdSingleCP = Except.ok Option.none := by
  exact ⟨rfl, rfl⟩

/-- Over a list of good ContentProtection entries, the scanner loop
agrees with the reference first-Widevine function and never raises. -/
lemma findWidevineInCP_good (parse : String → PSSH) :
    ∀ cps : List PyVal, cps.all goodCPEntry = true →
      findWidevineInCP parse cps = Except.ok (firstWidevineCP parse cps) := by
  intro cps
  induction cps with
  | nil => intro _; rfl
  | cons cp rest ih =>
    intro h
    rw [List.all_cons, Bool.and_eq_true] at h
    obtain ⟨hcp, hrest⟩ := h
    cases cp with
    | dict d =>
      simp only [findWidevineInCP, firstWidevineCP, pyGetE]
      cases hl : dictLookup d "cenc:pssh" with
      | none => simp only [hl, Option.getD]; exact ih hrest
      | some v =>
        cases v with
        | str s =>
          simp only [hl, Option.getD]
          by_cases hs : (parse s).system_id == widevineSystemId
          · simp [hs]
          · simp only [Bool.not_eq_true] at hs
            simp only [hs, if_false]
            exact ih hrest
        | none => simp only [hl, Option.getD]; exact ih hrest
        | int n => simp [goodCPEntry, hl] at hcp
        | dict d2 => simp [goodCPEntry, hl] at hcp
        | list l => simp [goodCPEntry, hl] at hcp
    | str s => simp [goodCPEntry] at hcp
    | int n => simp [goodCPEntry] at hcp
    | list l => simp [goodCPEntry] at hcp
    | none => simp [goodCPEntry] at hcp

/-- Over a list of good adaptation sets, the scanner agrees with the
reference first-Widevine function. -/
lemma findWidevine_good (parse : String → PSSH) :
    ∀ sets : List PyVal, sets.all goodAdaptationSet = true →
      findWidevine parse sets = Except.ok (firstWidevineManifest parse sets) := by
  intro sets
  induction sets with
  | nil => intro _; rfl
  | cons a rest ih =>
    intro h
    rw [List.all_cons, Bool.and_eq_true] at h
    obtain ⟨ha, hrest⟩ := h
    cases a with
    | dict d =>
      simp only [findWidevine, firstWidevineManifest, pyGetE]
      cases hl : dictLookup d "ContentProtection" with
      | none => simp only [hl, Option.getD]; exact ih hrest
      | some v =>
        cases v with
        | list cps =>
          have hg : cps.all goodCPEntry = true := by
            simpa [goodAdaptationSet, hl] using ha
          simp only [hl, Option.getD, findWidevineInCP_good parse cps hg]
          cases hf : firstWidevineCP parse cps with
          | none => simp only [hf]; exact ih hrest
          | some p => simp only [hf]
        | str s => simp only [hl, Option.getD]; exact ih hrest
        | int n => simp only [hl, Option.getD]; exact ih hrest
        | dict d2 => simp only [hl, Option.getD]; exact ih hrest
        | none => simp only [hl, Option.getD]; exact ih hrest
    | str s => simp [goodAdaptationSet] at ha
    | int n => simp [goodAdaptationSet] at ha
    | list l => simp [goodAdaptationSet] at ha
    | none => simp [goodAdaptationSet] at ha

/-- C9 (amended): get_widevine_pssh supports only the fully list-shaped
manifest form. When the MPD traversal yields AdaptationSet as a list
whose elements are dicts, and every list-valued ContentProtection holds
only well-formed entries, the scanner returns the first Widevine header
among the list-valued ContentProtection declarations and None when none
matches; non-list ContentProtection declarations are skipped, and a
non-list AdaptationSet raises instead of being scanned. -/
theorem get_widevine_pssh_list_shape (parse : String → PSSH) (mpd : PyVal)
    (sets : List PyVal)
    (h : manifestAdaptationSets mpd = Except.ok (PyVal.list sets))
    (hg : sets.all goodAdaptationSet = true) :
    get_widevine_pssh_body parse mpd =
      Except.ok (firstWidevineManifest parse sets) := by
  unfold get_widevine_pssh_body
  rw [h]
  simp only [pyIterE]
  exact findWidevine_good parse sets hg

/-- C9 witness: the list-shape theorem applied to the fixture manifest,
whose first Widevine header is the fixture header. -/
theorem get_widevine_pssh_list_shape_witness :
    get_widevine_pssh_body fixParse fixMpdListShaped =
      Except.ok (some fixWvP) := by
  have h := get_widevine_pssh_list_shape fixParse fixMpdListShaped
    [PyVal.dict [("ContentProtection",
      PyVal.list [PyVal.dict [("cenc:pssh", PyVal.str "b64")]])]]
    (by rfl) (by decide)
  rw [h]
  rfl

/-- C4 counterexample: a post whose timestamp resolves to 5, inside the
window from 0 to 10, is rejected by a filter whose media-kind setting
the post does not satisfy: the window biconditional does not hold
independently of the media-kind and accessibility checks. -/
theorem post_filter_window_not_independent :
    postFilterCall fixParseTime fixFilterVideo fixPost = Except.ok false ∧
      resolvedTimestamp fixParseTime fixPost = some 5 ∧
      fixFilterVideo.from_timestamp ≤ 5 ∧ (5 : Int) ≤ fixFilterVideo.to_timestamp := by
  refine ⟨rfl, rfl, by decide, by decide⟩

/-- C4 (amended): for a post whose timestamp resolves to T, when the
media-kind check and the accessibility check both accept the post, the
filter returns true exactly when T lies in the inclusive window; when
either check rejects the post the filter returns false regardless of the
window. -/
theorem post_filter_window_iff (parseTime : String → Option Int) (f : PostFilter)
    (post contents : PyVal) (T : Int)
    (hc : pyGetDefault post "contents" (PyVal.list [post]) = Except.ok contents)
    (hmt : ∀ mts, f.media_types = some mts →
        ∃ items, pyIterE contents = Except.ok items ∧
          pyAny (contentTypeMatches mts) items = Except.ok true)
    (hacc : f.accessible_only = true →
        ∃ items, pyIterE contents = Except.ok items ∧
          pyAny (pyContainsE "signedContent") items = Except.ok true)
    (ht : resolvedTimestamp parseTime post = some T) :
    postFilterCall parseTime f post = Except.ok true ↔
      f.from_timestamp ≤ T ∧ T ≤ f.to_timestamp := by
  cases post with
  | str s => simp [pyGetDefault] at hc
  | int n => simp [pyGetDefault] at hc
  | list l => simp [pyGetDefault] at hc
  | none => simp [pyGetDefault] at hc
  | dict d =>
    simp only [postFilterCall, hc]
    have hmtStep :
        (match f.media_types with
          | Option.none => (Except.ok false : Except Err Bool)
          | some mts =>
            match pyIterE contents with
            | Except.error e => Except.error e
            | Except.ok items =>
              match pyAny (contentTypeMatches mts) items with
              | Except.error e => Except.error e
              | Except.ok b => Except.ok (!b)) = Except.ok false := by
      cases hmts : f.media_types with
      | none => rfl
      | some mts =>
        obtain ⟨items, hi, ha⟩ := hmt mts hmts
        simp [hi, ha]
    rw [hmtStep]
    have haccStep :
        (if f.accessible_only then
          match pyIterE contents with
          | Except.error e => Except.error e
          | Except.ok items =>
            match pyAny (pyContainsE "signedContent") items with
            | Except.error e => Except.error e
            | Except.ok b => (Except.ok (!b) : Except Err Bool)
        else Except.ok false) = Except.ok false := by
      cases haccb : f.accessible_only with
      | false => rfl
      | true =>
        obtain ⟨items, hi, ha⟩ := hacc haccb
        simp [hi, ha]
    rw [haccStep]
    simp only [resolvedTimestamp] at ht
    simp only [pyGetDefault]
    by_cases hb : pyTruthy ((dictLookup d "createdAt").getD PyVal.none) = true
    · simp only [hb, if_true] at ht ⊢
      cases hv : (dictLookup d "createdAt").getD PyVal.none with
      | str s =>
        rw [hv] at ht
        have ht2 : parseTime (rstripZ s) = some T := ht
        simp [ht2]
      | int n => rw [hv] at ht; exact absurd ht (by simp)
      | dict d2 => rw [hv] at ht; exact absurd ht (by simp)
      | list l => rw [hv] at ht; exact absurd ht (by simp)
      | none => rw [hv] at ht; exact absurd ht (by simp)
    · simp only [Bool.not_eq_true] at hb
      simp only [hb, if_false] at ht ⊢
      cases hv : (dictLookup d "sentAt").getD PyVal.none with
      | str s =>
        rw [hv] at ht
        have ht2 : parseTime (rstripZ s) = some T := ht
        simp [ht2]
      | int n => rw [hv] at ht; exact absurd ht (by simp)
      | dict d2 => rw [hv] at ht; exact absurd ht (by simp)
      | list l => rw [hv] at ht; exact absurd ht (by simp)
      | none => rw [hv] at ht; exact absurd ht (by simp)

/-- C4 witness: the amended window theorem at the fixture image post and
image filter: the filter matches exactly because 5 lies in the window. -/
theorem post_filter_window_iff_witness :
    postFilterCall fixParseTime fixFilterImage fixPost = Except.ok true := by
  have h := post_filter_window_iff fixParseTime fixFilterImage fixPost
    (PyVal.list [fixPost]) 5 (by rfl)
    (by
      intro mts hm
      refine ⟨[fixPost], rfl, ?_⟩
      cases hm
      rfl)
    (by intro hacc; cases hacc) (by rfl)
  exact h.mpr (by decide)

/-- C5 counterexample: a default-settings filter applied to a post with
neither createdAt nor sentAt raises AttributeError (None has no rstrip)
instead of returning false. -/
theorem post_filter_no_timestamp_raises :
    postFilterCall fixParseTime fixFilterDefault fixPostNoTs =
      Except.error (Err.py PyErr.attributeError) := rfl

/-- C5 (amended): a post with neither a createdAt nor a sentAt field is
never matched: for every filter the call either returns false from an
earlier check or raises while resolving the timestamp — it never
returns true. -/
theorem post_filter_no_timestamp_never_matches (parseTime : String → Option Int)
    (f : PostFilter) (entries : List (String × PyVal))
    (h1 : dictLookup entries "createdAt" = Option.none)
    (h2 : dictLookup entries "sentAt" = Option.none) :
    postFilterCall parseTime f (PyVal.dict entries) ≠ Except.ok true := by
  intro hcontra
  simp only [postFilterCall, pyGetDefault] at hcontra
  split at hcontra
  · exact Except.noConfusion hcontra
  · exact absurd hcontra (by simp)
  · split at hcontra
    · exact Except.noConfusion hcontra
    · exact absurd hcontra (by simp)
    · simp only [h1, h2, Option.getD_none, pyTruthy, Bool.false_eq_true,
        if_false] at hcontra
      exact Except.noConfusion hcontra

/-- C5 witness: the never-matched theorem at the fixture post without
timestamps and the default filter. -/
theorem post_filter_no_timestamp_never_matches_witness :
    postFilterCall fixParseTime fixFilterDefault fixPostNoTs ≠ Except.ok true :=
  post_filter_no_timestamp_never_matches fixParseTime fixFilterDefault
    [("contentType", PyVal.str "image")] rfl rfl

/-- C7: get_widevine_pssh is memoized per manifest URL: after a first
successful call from an uncached state, a second call with the same URL
returns the same result and leaves the state untouched — in particular
no further manifest fetch is issued — and the two calls together issued
exactly one fetch. -/
theorem get_widevine_pssh_memoized (ora : Oracles) (url : String)
    (s s1 : RunState) (r : Option PSSH)
    (hmiss : psshCacheLookup s.cs url = Option.none)
    (h1 : get_widevine_pssh ora url s = (Except.ok r, s1)) :
    get_widevine_pssh ora url s1 = (Except.ok r, s1) ∧
      s1.ops.count Op.manifestFetch = s.ops.count Op.manifestFetch + 1 := by
  unfold get_widevine_pssh at h1 ⊢
  simp only [hmiss] at h1
  cases hm : ora.manifest url with
  | error e =>
    simp only [hm] at h1
    exact absurd (congrArg Prod.fst h1) (by simp)
  | ok mpd =>
    simp only [hm] at h1
    cases hb : get_widevine_pssh_body ora.parsePSSH mpd with
    | error e =>
      simp only [hb] at h1
      exact absurd (congrArg Prod.fst h1) (by simp)
    | ok r0 =>
      simp only [hb] at h1
      have hfst := congrArg Prod.fst h1
      have hsnd := congrArg Prod.snd h1
      simp only at hfst hsnd
      have hr : r0 = r := by
        simpa using hfst
      subst hr
      have hcl : psshCacheLookup s1.cs url = some r0 := by
        rw [← hsnd]
        have hf : s.cs.psshCache.find? (fun e => e.1 == url) = Option.none := by
          simp only [psshCacheLookup, Option.map_eq_none'] at hmiss
          exact hmiss
        simp [psshCacheLookup, List.find?_append, hf]
      rw [hcl]
      constructor
      · rfl
      · rw [← hsnd]
        simp

/-- C7 witness: the memoization theorem at the fixture oracle and the
empty state: the second call returns the cached header and the fetch
count across both calls is one. -/
theorem get_widevine_pssh_memoized_witness :
    get_widevine_pssh fixOraOk "u" ((get_widevine_pssh fixOraOk "u" fixEmptyRS).2) =
        (Except.ok (some fixWvP), (get_widevine_pssh fixOraOk "u" fixEmptyRS).2) ∧
      ((get_widevine_pssh fixOraOk "u" fixEmptyRS).2).ops.count Op.manifestFetch =
        fixEmptyRS.ops.count Op.manifestFetch + 1 :=
  get_widevine_pssh_memoized fixOraOk "u" fixEmptyRS
    ((get_widevine_pssh fixOraOk "u" fixEmptyRS).2) (some fixWvP) rfl rfl

/-- C8: on a cache miss, a protection header equal (in the semantic
HashablePSSH sense) to the known test header yields the hardcoded
fallback key with no state change other than caching — in particular no
license request is logged — while any other header performs the license
exchange and returns the first issued key, or none when the license
carried no keys. -/
theorem get_decryption_key_default_shortcut (ora : Oracles) (pssh : PSSH)
    (s : RunState) (hmiss : keyCacheLookup s.cs pssh = Option.none) :
    (hashablePSSHEq pssh DEFAULT_PSSH = true →
      get_decryption_key ora pssh s =
        (Except.ok (some DEFAULT_KEY),
          { s with cs := { s.cs with
              keyCache := s.cs.keyCache ++ [(pssh, some DEFAULT_KEY)] } })) ∧
    (hashablePSSHEq pssh DEFAULT_PSSH = false →
      ∀ keys, ora.license pssh = Except.ok keys →
        get_decryption_key ora pssh s =
          (Except.ok keys.head?,
            { s with
                ops := s.ops ++ [Op.licenseRequest],
                cs := { s.cs with
                  keyCache := s.cs.keyCache ++ [(pssh, keys.head?)] } })) := by
  constructor
  · intro hdef
    unfold get_decryption_key
    simp only [hmiss, hdef, if_true]
  · intro hnd keys hk
    unfold get_decryption_key
    simp only [hmiss, hnd, Bool.false_eq_true, if_false, hk]

/-- C8 witness: the shortcut theorem at the default header (fallback key,
no license request) and at the fixture non-default header (license
exchange returning the first issued key). -/
theorem get_decryption_key_default_shortcut_witness :
    get_decryption_key fixOraOk DEFAULT_PSSH fixEmptyRS =
        (Except.ok (some DEFAULT_KEY),
          { fixEmptyRS with cs := { fixEmptyRS.cs with
              keyCache := fixEmptyRS.cs.keyCache ++ [(DEFAULT_PSSH, some DEFAULT_KEY)] } }) ∧
      get_decryption_key fixOraOk fixWvP fixEmptyRS =
        (Except.ok ([fixKey].head?),
          { fixEmptyRS with
              ops := fixEmptyRS.ops ++ [Op.licenseRequest],
              cs := { fixEmptyRS.cs with
                keyCache := fixEmptyRS.cs.keyCache ++ [(fixWvP, [fixKey].head?)] } }) :=
  ⟨(get_decryption_key_default_shortcut fixOraOk DEFAULT_PSSH fixEmptyRS rfl).1 (by decide),
    (get_decryption_key_default_shortcut fixOraOk fixWvP fixEmptyRS rfl).2 (by decide)
      [fixKey] rfl⟩

/-- C2 counterexample: with the default creator-folder behavior and a
cold cache, download_media performs a network profile lookup to resolve
the creator name before the existing-file short-circuit: the run returns
the existing path but its operation log contains a network operation,
refuting the claim that no network operation is performed. -/
theorem short_circuit_performs_username_lookup :
    (download_media fixOraOk fixMediaImg "out" false true true fixRSTargetExists).1 =
        Except.ok "out/alice/c1.jpg" ∧
      ((download_media fixOraOk fixMediaImg "out" false true true fixRSTargetExists).2).ops =
        [Op.profileLookup, Op.callback] :=
  ⟨rfl, rfl⟩

/-- C2 (amended): when the canonical target exists and force is off, the
short-circuit performs no download or decryption work: with
creator_folder off — or with the creator name already cached — the call
returns the existing path and its only effect is the single completion
callback (the state is otherwise untouched, so a second download of the
same descriptor performs no download or decryption operation at all);
the only network operation the short-circuit can ever perform is the
creator-name lookup when creator_folder is on and the name is uncached. -/
theorem download_media_short_circuit_no_work (ora : Oracles) (media : Media)
    (odir : String) (s : RunState) :
    (fsExists s.cs.fs (targetPath odir media) = true →
      download_media ora media odir false false true s =
        (Except.ok (targetPath odir media),
          { s with ops := s.ops ++ [Op.callback] })) ∧
    (∀ u, usernameCacheLookup s.cs media.user_id = some (some u) →
      fsExists s.cs.fs (targetPath (odir ++ "/" ++ u) media) = true →
      download_media ora media odir false true true s =
        (Except.ok (targetPath (odir ++ "/" ++ u) media),
          { s with ops := s.ops ++ [Op.callback] })) := by
  constructor
  · intro hex
    unfold download_media download_media_core
    simp only [Bool.false_eq_true, if_false, hex, Bool.not_false, Bool.and_self,
      if_true, doCallback]
  · intro u hcache hex
    unfold download_media get_username download_media_core
    simp only [hcache, if_true, hex, Bool.not_false, Bool.and_self, doCallback]

/-- C2 witness: the short-circuit theorem at a state whose filesystem
already holds the target: the run returns the existing path and logs
only the callback. -/
theorem download_media_short_circuit_no_work_witness :
    download_media fixOraOk fixMediaImg "out" false false true fixRSTargetExistsFlat =
      (Except.ok (targetPath "out" fixMediaImg),
        { fixRSTargetExistsFlat with
            ops := fixRSTargetExistsFlat.ops ++ [Op.callback] }) :=
  (download_media_short_circuit_no_work fixOraOk fixMediaImg "out"
    fixRSTargetExistsFlat).1 rfl

/-- get_username never logs a callback. -/
lemma cbCount_get_username (ora : Oracles) (uid : String) (s : RunState) :
    ((get_username ora uid s).2).ops.count Op.callback = s.ops.count Op.callback := by
  unfold get_username
  cases hc : usernameCacheLookup s.cs uid with
  | some r => rfl
  | none =>
    cases hmap : s.cs.usernameMapping.reverse.find? (fun e => e.2 == uid) with
    | some e => rfl
    | none =>
      cases hr : ora.usernameResult uid with
      | error e => simp [hr]
      | ok v => cases v <;> simp [hr]

/-- get_widevine_pssh never logs a callback. -/
lemma cbCount_get_widevine_pssh (ora : Oracles) (url : String) (s : RunState) :
    ((get_widevine_pssh ora url s).2).ops.count Op.callback = s.ops.count Op.callback := by
  unfold get_widevine_pssh
  cases hc : psshCacheLookup s.cs url with
  | some r => rfl
  | none =>
    cases hm : ora.manifest url with
    | error e => simp [hm]
    | ok mpd =>
      cases hb : get_widevine_pssh_body ora.parsePSSH mpd with
      | error e => simp [hm, hb]
      | ok r => simp [hm, hb]

/-- get_decryption_key never logs a callback. -/
lemma cbCount_get_decryption_key (ora : Oracles) (pssh : PSSH) (s : RunState) :
    ((get_decryption_key ora pssh s).2).ops.count Op.callback = s.ops.count Op.callback := by
  unfold get_decryption_key
  cases hc : keyCacheLookup s.cs pssh with
  | some r => rfl
  | none =>
    by_cases hdef : hashablePSSHEq pssh DEFAULT_PSSH = true
    · simp [hdef]
    · simp only [Bool.not_eq_true] at hdef
      cases hk : ora.license pssh with
      | error e => simp [hdef, hk]
      | ok keys => simp [hdef, hk]

/-- decrypt_file never logs a callback. -/
lemma cbCount_decrypt_file (ora : Oracles) (file : String) (k : ContentKey)
    (s : RunState) :
    ((decrypt_file ora file k s).2).ops.count Op.callback = s.ops.count Op.callback := by
  unfold decrypt_file
  by_cases hp : ora.packagerFound = true
  · simp only [hp, Bool.not_true, Bool.false_eq_true, if_false]
    cases ho : ora.decryptOutcome s.decryptCalls <;> simp
  · simp only [Bool.not_eq_true] at hp
    simp [hp]

/-- ffmpegExec never logs a callback. -/
lemma cbCount_ffmpegExec (ora : Oracles) (inputs : List String) (output : String)
    (s : RunState) :
    ((ffmpegExec ora inputs output s).2).ops.count Op.callback = s.ops.count Op.callback := by
  unfold ffmpegExec
  by_cases hmiss : (inputs.any (fun p => !fsExists s.cs.fs p)) = true
  · simp [hmiss]
  · simp only [Bool.not_eq_true] at hmiss
    cases ho : ora.ffmpegOutcome s.ffmpegCalls <;> simp [hmiss, ho]

/-- The decryption loop never logs a callback. -/
lemma cbCount_decryptLoop (ora : Oracles) (media : Media) :
    ∀ (files : List String) (s : RunState),
      ((decryptLoop ora media files s).2).ops.count Op.callback =
        s.ops.count Op.callback := by
  intro files
  induction files with
  | nil => intro s; rfl
  | cons f rest ih =>
    intro s
    unfold decryptLoop
    rcases h1 : get_widevine_pssh ora media.signed_url s with ⟨r1, t1⟩
    have e1 := cbCount_get_widevine_pssh ora media.signed_url s
    rw [h1] at e1
    cases r1 with
    | error e => simpa using e1
    | ok v1 =>
      cases v1 with
      | none => simpa using e1
      | some pssh =>
        rcases h2 : get_decryption_key ora pssh t1 with ⟨r2, t2⟩
        have e2 := cbCount_get_decryption_key ora pssh t1
        rw [h2] at e2
        cases r2 with
        | error e => simp only [h2]; rw [e2]; exact e1
        | ok v2 =>
          cases v2 with
          | none => simp only [h2]; rw [e2]; exact e1
          | some key =>
            rcases h3 : decrypt_file ora f key t2 with ⟨r3, t3⟩
            have e3 := cbCount_decrypt_file ora f key t2
            rw [h3] at e3
            cases r3 with
            | error e => simp only [h2, h3]; rw [e3, e2]; exact e1
            | ok u =>
              rcases h4 : decryptLoop ora media rest t3 with ⟨r4, t4⟩
              have e4 := ih t3
              rw [h4] at e4
              cases r4 with
              | error e => simp only [h2, h3, h4]; rw [e4, e3, e2]; exact e1
              | ok others => simp only [h2, h3, h4]; rw [e4, e3, e2]; exact e1

/-- deleteSegs leaves the operation log untouched. -/
lemma ops_deleteSegs (mp cid : String) (s : RunState) :
    (deleteSegs mp cid s).ops = s.ops := rfl

/-- finishStep never logs a callback. -/
lemma cbCount_finishStep (ora : Oracles) (media : Media) (mp : String)
    (s : RunState) :
    ((finishStep ora media mp s).2).ops.count Op.callback = s.ops.count Op.callback := by
  unfold finishStep
  by_cases hv : (media.content_type == "video") = true
  · rw [if_pos hv]
  · rw [if_neg hv]
    rcases h3 : ffmpegExec ora [mp] (withSuffix mp ("." ++ media.extension)) s
      with ⟨r3, t3⟩
    have e3 := cbCount_ffmpegExec ora [mp] (withSuffix mp ("." ++ media.extension)) s
    rw [h3] at e3
    cases r3 with
    | error e => exact e3
    | ok u => exact e3

/-- mergeStep never logs a callback. -/
lemma cbCount_mergeStep (ora : Oracles) (media : Media) (mp : String)
    (inputs : List String) (s : RunState) :
    ((mergeStep ora media mp inputs s).2).ops.count Op.callback =
      s.ops.count Op.callback := by
  unfold mergeStep
  rcases h2 : ffmpegExec ora inputs mp s with ⟨r2, t2⟩
  have e2 := cbCount_ffmpegExec ora inputs mp s
  rw [h2] at e2
  cases r2 with
  | error e => exact e2
  | ok u =>
    exact (cbCount_finishStep ora media mp (deleteSegs mp media.content_id t2)).trans e2

/-- _decrypt_and_merge_media never logs a callback. -/
lemma cbCount_decrypt_and_merge (ora : Oracles) (media : Media) (mp : String)
    (s : RunState) :
    ((decrypt_and_merge_media ora media mp s).2).ops.count Op.callback =
      s.ops.count Op.callback := by
  unfold decrypt_and_merge_media
  rcases h1 : decryptLoop ora media (globSegs s.cs.fs (pathParent mp) media.content_id) s
    with ⟨r1, t1⟩
  have e1 := cbCount_decryptLoop ora media
    (globSegs s.cs.fs (pathParent mp) media.content_id) s
  rw [h1] at e1
  cases r1 with
  | error e => exact e1
  | ok inputs => exact (cbCount_mergeStep ora media mp inputs t1).trans e1

/-- The download body logs the callback exactly once when it returns
successfully and never when it raises. -/
lemma cbCount_download_media_core (ora : Oracles) (media : Media) (odir : String)
    (force : Bool) (s : RunState) :
    ((download_media_core ora media odir force true s).2).ops.count Op.callback =
      s.ops.count Op.callback +
        (match (download_media_core ora media odir force true s).1 with
          | Except.ok _ => 1
          | Except.error _ => 0) := by
  unfold download_media_core
  split
  · simp [doCallback]
  · split
    · cases hp : ora.plainGetResult with
      | error e => simp [hp]
      | ok body => simp [hp, doCallback]
    · cases hy : ora.ytdlpResult with
      | error e => simp [hy]
      | ok names =>
        simp only [hy]
        by_cases henc : media.is_encrypted = true
        · simp only [henc, if_true]
          rcases hdm : decrypt_and_merge_media ora media
              (if (media.content_type != "video") = true then
                withSuffix (targetPath odir media) ".mp4"
              else targetPath odir media)
              { s with
                  ops := s.ops ++ [Op.ytdlpRun],
                  cs := { s.cs with
                    fs := names.foldl
                      (fun fs n =>
                        fsWrite fs
                          (pathParent
                              (if (media.content_type != "video") = true then
                                withSuffix (targetPath odir media) ".mp4"
                              else targetPath odir media) ++ "/" ++ n)
                          (.enc n))
                      s.cs.fs } }
            with ⟨rd, td⟩
          have ed := cbCount_decrypt_and_merge ora media
            (if (media.content_type != "video") = true then
              withSuffix (targetPath odir media) ".mp4"
            else targetPath odir media)
            { s with
                ops := s.ops ++ [Op.ytdlpRun],
                cs := { s.cs with
                  fs := names.foldl
                    (fun fs n =>
                      fsWrite fs
                        (pathParent
                            (if (media.content_type != "video") = true then
                              withSuffix (targetPath odir media) ".mp4"
                            else targetPath odir media) ++ "/" ++ n)
                        (.enc n))
                    s.cs.fs } }
          rw [hdm] at ed
          simp only [List.count_append] at ed
          cases rd with
          | error e => simpa using ed
          | ok final => simp [doCallback]; simpa using ed
        · simp only [Bool.not_eq_true] at henc
          simp [henc, doCallback]

/-- download_media with a callback supplied logs it exactly once on a
successful return and never on an exception. -/
lemma cbCount_download_media (ora : Oracles) (media : Media) (odir : String)
    (force creator : Bool) (s : RunState) :
    ((download_media ora media odir force creator true s).2).ops.count Op.callback =
      s.ops.count Op.callback +
        (match (download_media ora media odir force creator true s).1 with
          | Except.ok _ => 1
          | Except.error _ => 0) := by
  cases creator with
  | false =>
    unfold download_media
    simp only [Bool.false_eq_true, if_false]
    exact cbCount_download_media_core ora media odir force s
  | true =>
    unfold download_media
    simp only [if_true]
    rcases h1 : get_username ora media.user_id s with ⟨r1, t1⟩
    have e1 := cbCount_get_username ora media.user_id s
    rw [h1] at e1
    cases r1 with
    | error e => simpa using e1
    | ok v =>
      cases v with
      | none => simpa using e1
      | some u =>
        have ec := cbCount_download_media_core ora media (odir ++ "/" ++ u) force t1
        simp only at e1
        rw [e1] at ec
        exact ec

/-- C3: the completion-callback contract of download_media: with a
callback supplied and a run starting from a log with no callback
entries, the callback is invoked exactly once when the call returns
successfully (the short-circuit case included) and never when the call
fails with an error. -/
theorem download_media_callback_exactly_once (ora : Oracles) (media : Media)
    (odir : String) (force creator : Bool) (s : RunState)
    (h0 : s.ops.count Op.callback = 0) :
    (∀ p, (download_media ora media odir force creator true s).1 = Except.ok p →
      ((download_media ora media odir force creator true s).2).ops.count Op.callback = 1) ∧
    (∀ e, (download_media ora media odir force creator true s).1 = Except.error e →
      ((download_media ora media odir force creator true s).2).ops.count Op.callback = 0) := by
  have h := cbCount_download_media ora media odir force creator s
  constructor
  · intro p hp
    rw [hp] at h
    rw [h, h0]
    rfl
  · intro e he
    rw [he] at h
    rw [h, h0]
    rfl

/-- C3 witness: a full successful encrypted-video download run from the
empty state invokes the callback exactly once. -/
theorem download_media_callback_exactly_once_witness :
    ((download_media fixOraOk fixMediaVid "out" false false true fixEmptyRS).2).ops.count
      Op.callback = 1 :=
  (download_media_callback_exactly_once fixOraOk fixMediaVid "out" false false
    fixEmptyRS rfl).1 "out/c1.mp4" rfl

/-- Writing a path stores its data. -/
lemma fsLookup_fsWrite_self (p : String) (d : FileData) :
    ∀ fs : FS, fsLookup (fsWrite fs p d) p = some d := by
  intro fs
  induction fs with
  | nil => simp [fsWrite, fsLookup, List.find?]
  | cons e rest ih =>
    by_cases he : (e.1 == p) = true
    · simp [fsWrite, fsLookup, List.find?, he]
    · simp only [Bool.not_eq_true] at he
      simp only [fsWrite, he, Bool.false_eq_true, if_false]
      simpa [fsLookup, List.find?, he] using ih

/-- Writing one path leaves every other path unchanged. -/
lemma fsLookup_fsWrite_ne (p q : String) (d : FileData) (h : p ≠ q) :
    ∀ fs : FS, fsLookup (fsWrite fs q d) p = fsLookup fs p := by
  intro fs
  induction fs with
  | nil =>
    have : (q == p) = false := by simpa using fun hh => h hh.symm
    simp [fsWrite, fsLookup, List.find?, this]
  | cons e rest ih =>
    by_cases he : (e.1 == q) = true
    · have hqp : (q == p) = false := by simpa using fun hh => h hh.symm
      have hep : (e.1 == p) = false := by
        have heq : e.1 = q := by simpa using he
        simpa [heq] using hqp
      simp [fsWrite, fsLookup, List.find?, he, hqp, hep]
    · simp only [Bool.not_eq_true] at he
      by_cases hep : (e.1 == p) = true
      · simp [fsWrite, fsLookup, List.find?, he, hep]
      · simp only [Bool.not_eq_true] at hep
        simp only [fsWrite, he, Bool.false_eq_true, if_false]
        simpa [fsLookup, List.find?, he, hep] using ih

/-- Existence is definedness of the lookup. -/
lemma fsExists_eq_isSome (p : String) : ∀ fs : FS,
    fsExists fs p = (fsLookup fs p).isSome := by
  intro fs
  induction fs with
  | nil => rfl
  | cons e rest ih =>
    by_cases he : (e.1 == p) = true
    · simp [fsExists, fsLookup, List.find?, he]
    · simp only [Bool.not_eq_true] at he
      simpa [fsExists, fsLookup, List.find?, he] using ih

/-- Lookup over a cons cell. -/
lemma fsLookup_cons (e : String × FileData) (rest : FS) (p : String) :
    fsLookup (e :: rest) p =
      if (e.1 == p) = true then some e.2 else fsLookup rest p := by
  by_cases hep : (e.1 == p) = true <;> simp [fsLookup, List.find?, hep]

/-- Deleting one path leaves every other path unchanged. -/
lemma fsLookup_fsDelete_ne (p q : String) (h : p ≠ q) :
    ∀ fs : FS, fsLookup (fsDelete fs q) p = fsLookup fs p := by
  intro fs
  induction fs with
  | nil => rfl
  | cons e rest ih =>
    simp only [fsDelete, List.filter_cons] at ih ⊢
    by_cases heq : (e.1 != q) = true
    · simp only [heq, if_true, fsLookup_cons]
      rw [ih]
    · simp only [Bool.not_eq_true] at heq
      have heq2 : e.1 = q := by
        have := congrArg (fun b => !b) heq
        simpa using this
      have hep : (e.1 == p) = false := by
        rw [heq2]
        simpa using fun hh => h hh.symm
      simp only [heq, Bool.false_eq_true, if_false]
      rw [ih, fsLookup_cons]
      simp [hep]

/-- A path outside the deleted list keeps its lookup through the unlink
fold. -/
lemma fsLookup_foldl_fsDelete_notmem (p : String) :
    ∀ (l : List String) (fs : FS), p ∉ l →
      fsLookup (l.foldl fsDelete fs) p = fsLookup fs p := by
  intro l
  induction l with
  | nil => intro fs _; rfl
  | cons q rest ih =>
    intro fs hp
    rw [List.mem_cons, not_or] at hp
    rw [List.foldl_cons, ih (fsDelete fs q) hp.2,
      fsLookup_fsDelete_ne p q hp.1 fs]

/-- Every path produced by the segment glob exists in the filesystem,
lies in the globbed directory, and matches the segment pattern. -/
lemma globSegs_sub (fs : FS) (dir cid p : String)
    (h : p ∈ globSegs fs dir cid) :
    fsExists fs p = true ∧ pathParent p = dir ∧
      globMatchesSeg cid (pathName p) = true := by
  simp only [globSegs, List.mem_map] at h
  obtain ⟨e, he, hep⟩ := h
  rw [List.mem_filter] at he
  obtain ⟨hmem, hpred⟩ := he
  subst hep
  rw [Bool.and_eq_true] at hpred
  refine ⟨?_, by simpa using hpred.1, hpred.2⟩
  simp only [fsExists, List.any_eq_true]
  exact ⟨e, hmem, by simp⟩

/-- A path keeps existing through a write. -/
lemma fsExists_fsWrite_mono (p q : String) (d : FileData)
    (h : fsExists fs p = true) : fsExists (fsWrite fs q d) p = true := by
  by_cases hpq : p = q
  · subst hpq
    rw [fsExists_eq_isSome, fsLookup_fsWrite_self]
    rfl
  · rw [fsExists_eq_isSome, fsLookup_fsWrite_ne p q d hpq,
      ← fsExists_eq_isSome]
    exact h

/-- Lookup after the segment-decryption write fold: globbed paths carry
their decrypted data, all other paths are untouched. -/
lemma fsLookup_foldl_write (g : String → FileData) (p : String) :
    ∀ (files : List String) (fs0 : FS),
      fsLookup (files.foldl (fun fs f => fsWrite fs f (g f)) fs0) p =
        if p ∈ files then some (g p) else fsLookup fs0 p := by
  intro files
  induction files with
  | nil => intro fs0; simp
  | cons f rest ih =>
    intro fs0
    rw [List.foldl_cons, ih (fsWrite fs0 f (g f))]
    by_cases hr : p ∈ rest
    · simp [hr]
    · by_cases hpf : p = f
      · subst hpf
        simp [hr, fsLookup_fsWrite_self]
      · simp [hr, hpf, fsLookup_fsWrite_ne p f (g f) hpf fs0]

/-- A filterMap whose function is total on the list is a map. -/
lemma filterMap_eq_map_of_mem {α β : Type} (g : α → Option β) (m : α → β) :
    ∀ l : List α, (∀ a ∈ l, g a = some (m a)) → l.filterMap g = l.map m := by
  intro l
  induction l with
  | nil => intro _; rfl
  | cons a rest ih =>
    intro h
    rw [List.filterMap_cons, h a (by simp), List.map_cons,
      ih (fun x hx => h x (by simp [hx]))]

/-- get_widevine_pssh never touches the filesystem, the key cache, or
the tool counters. -/
lemma state_get_widevine_pssh (ora : Oracles) (url : String) (s : RunState) :
    ((get_widevine_pssh ora url s).2).cs.fs = s.cs.fs ∧
      ((get_widevine_pssh ora url s).2).cs.keyCache = s.cs.keyCache ∧
      ((get_widevine_pssh ora url s).2).decryptCalls = s.decryptCalls ∧
      ((get_widevine_pssh ora url s).2).ffmpegCalls = s.ffmpegCalls := by
  unfold get_widevine_pssh
  cases hc : psshCacheLookup s.cs url with
  | some r => simp
  | none =>
    cases hm : ora.manifest url with
    | error e => simp [hm]
    | ok mpd =>
      cases hb : get_widevine_pssh_body ora.parsePSSH mpd with
      | error e => simp [hm, hb]
      | ok r => simp [hm, hb]

/-- get_decryption_key never touches the filesystem, the protection
header cache, or the tool counters. -/
lemma state_get_decryption_key (ora : Oracles) (pssh : PSSH) (s : RunState) :
    ((get_decryption_key ora pssh s).2).cs.fs = s.cs.fs ∧
      ((get_decryption_key ora pssh s).2).cs.psshCache = s.cs.psshCache ∧
      ((get_decryption_key ora pssh s).2).decryptCalls = s.decryptCalls ∧
      ((get_decryption_key ora pssh s).2).ffmpegCalls = s.ffmpegCalls := by
  unfold get_decryption_key
  cases hc : keyCacheLookup s.cs pssh with
  | some r => simp
  | none =>
    by_cases hdef : hashablePSSHEq pssh DEFAULT_PSSH = true
    · simp [hdef]
    · simp only [Bool.not_eq_true] at hdef
      cases hk : ora.license pssh with
      | error e => simp [hdef, hk]
      | ok keys => simp [hdef, hk]

/-- decrypt_file writes only at its file argument. -/
lemma lookup_decrypt_file_ne (ora : Oracles) (f : String) (k : ContentKey)
    (s : RunState) (p : String) (h : p ≠ f) :
    fsLookup ((decrypt_file ora f k s).2).cs.fs p = fsLookup s.cs.fs p := by
  unfold decrypt_file
  by_cases hp : ora.packagerFound = true
  · simp only [hp, Bool.not_true, Bool.false_eq_true, if_false]
    cases ho : ora.decryptOutcome s.decryptCalls
    · simpa using fsLookup_fsWrite_ne p f (FileData.dec (pathName f)) h s.cs.fs
    · rfl
    · simpa using fsLookup_fsWrite_ne p f FileData.halfWritten h s.cs.fs
  · simp only [Bool.not_eq_true] at hp
    simp [hp]

/-- The decryption loop writes only at paths of its file list. -/
lemma lookup_decryptLoop_notmem (ora : Oracles) (media : Media) (p : String) :
    ∀ (files : List String) (s : RunState), p ∉ files →
      fsLookup ((decryptLoop ora media files s).2).cs.fs p = fsLookup s.cs.fs p := by
  intro files
  induction files with
  | nil => intro s _; rfl
  | cons f rest ih =>
    intro s hp
    rw [List.mem_cons, not_or] at hp
    unfold decryptLoop
    rcases h1 : get_widevine_pssh ora media.signed_url s with ⟨r1, t1⟩
    have e1 : t1.cs.fs = s.cs.fs := by
      have := (state_get_widevine_pssh ora media.signed_url s).1
      rw [h1] at this
      exact this
    cases r1 with
    | error e => simpa using congrArg (fun fs => fsLookup fs p) e1
    | ok v1 =>
      cases v1 with
      | none => simpa using congrArg (fun fs => fsLookup fs p) e1
      | some pssh =>
        rcases h2 : get_decryption_key ora pssh t1 with ⟨r2, t2⟩
        have e2 : t2.cs.fs = t1.cs.fs := by
          have := (state_get_decryption_key ora pssh t1).1
          rw [h2] at this
          exact this
        cases r2 with
        | error e =>
          simp only [h2]
          rw [e2, e1]
        | ok v2 =>
          cases v2 with
          | none =>
            simp only [h2]
            rw [e2, e1]
          | some key =>
            rcases h3 : decrypt_file ora f key t2 with ⟨r3, t3⟩
            have e3 : fsLookup t3.cs.fs p = fsLookup t2.cs.fs p := by
              have := lookup_decrypt_file_ne ora f key t2 p hp.1
              rw [h3] at this
              exact this
            cases r3 with
            | error e =>
              simp only [h2, h3]
              rw [e3, e2, e1]
            | ok u =>
              rcases h4 : decryptLoop ora media rest t3 with ⟨r4, t4⟩
              have e4 : fsLookup t4.cs.fs p = fsLookup t3.cs.fs p := by
                have := ih t3 hp.2
                rw [h4] at this
                exact this
              cases r4 with
              | error e =>
                simp only [h2, h3, h4]
                rw [e4, e3, e2, e1]
              | ok others =>
                simp only [h2, h3, h4]
                rw [e4, e3, e2, e1]

/-- A failing ffmpeg run that did not half-write its output leaves the
filesystem unchanged. -/
lemma ffmpegExec_error_fs (ora : Oracles) (inputs : List String) (output : String)
    (s : RunState) (e : Err)
    (hff : ora.ffmpegOutcome s.ffmpegCalls ≠ ToolOutcome.failHalfOutput)
    (h : (ffmpegExec ora inputs output s).1 = Except.error e) :
    ((ffmpegExec ora inputs output s).2).cs.fs = s.cs.fs := by
  unfold ffmpegExec at h ⊢
  by_cases hmiss : (inputs.any (fun p => !fsExists s.cs.fs p)) = true
  · simp [hmiss]
  · simp only [Bool.not_eq_true] at hmiss
    simp only [hmiss, Bool.false_eq_true, if_false] at h ⊢
    cases ho : ora.ffmpegOutcome s.ffmpegCalls with
    | ok =>
      rw [ho] at h
      exact absurd h (by simp)
    | failNoOutput => simp [ho]
    | failHalfOutput => exact absurd ho hff

/-- A successful ffmpeg run wrote its output from the data of its
inputs. -/
lemma ffmpegExec_ok_inv (ora : Oracles) (inputs : List String) (output : String)
    (s : RunState) (h : (ffmpegExec ora inputs output s).1 = Except.ok ()) :
    ((ffmpegExec ora inputs output s).2).cs.fs =
      fsWrite s.cs.fs output
        (FileData.ffout (inputs.filterMap (fsLookup s.cs.fs))) := by
  unfold ffmpegExec at h ⊢
  by_cases hmiss : (inputs.any (fun p => !fsExists s.cs.fs p)) = true
  · rw [if_pos hmiss] at h
    exact absurd h (by simp)
  · simp only [Bool.not_eq_true] at hmiss
    simp only [hmiss, Bool.false_eq_true, if_false] at h ⊢
    cases ho : ora.ffmpegOutcome s.ffmpegCalls with
    | ok => simp [ho]
    | failNoOutput =>
      rw [ho] at h
      exact absurd h (by simp)
    | failHalfOutput =>
      rw [ho] at h
      exact absurd h (by simp)

/-- Deleting a path removes every binding of it. -/
lemma fsLookup_fsDelete_self (p : String) : ∀ fs : FS,
    fsLookup (fsDelete fs p) p = Option.none := by
  intro fs
  induction fs with
  | nil => rfl
  | cons e rest ih =>
    simp only [fsDelete, List.filter_cons] at ih ⊢
    by_cases he : (e.1 != p) = true
    · simp only [he, if_true, fsLookup_cons]
      have hep : (e.1 == p) = false := by
        simpa using he
      simp [hep, ih]
    · simp only [Bool.not_eq_true] at he
      simp only [he, Bool.false_eq_true, if_false]
      exact ih

/-- An absent path stays absent through a delete. -/
lemma fsLookup_fsDelete_none (p q : String) (fs : FS)
    (h : fsLookup fs p = Option.none) :
    fsLookup (fsDelete fs q) p = Option.none := by
  by_cases hpq : p = q
  · subst hpq
    exact fsLookup_fsDelete_self p fs
  · rw [fsLookup_fsDelete_ne p q hpq fs]
    exact h

/-- An absent path stays absent through the unlink fold. -/
lemma fsLookup_foldl_fsDelete_none (p : String) :
    ∀ (l : List String) (fs : FS), fsLookup fs p = Option.none →
      fsLookup (l.foldl fsDelete fs) p = Option.none := by
  intro l
  induction l with
  | nil => intro fs h; exact h
  | cons q rest ih =>
    intro fs h
    rw [List.foldl_cons]
    exact ih (fsDelete fs q) (fsLookup_fsDelete_none p q fs h)

/-- Absence is the lookup being undefined. -/
lemma fsExists_false_iff (fs : FS) (p : String) :
    fsExists fs p = false ↔ fsLookup fs p = Option.none := by
  rw [fsExists_eq_isSome]
  cases fsLookup fs p <;> simp

/-- Failure atomicity of _decrypt_and_merge_media with respect to the
final artifact path: when no ffmpeg invocation half-writes its output,
a failing run leaves no file at the final output path if none was there
before (segment decryption is protected per segment by the temp-file
and rename discipline and never touches the final path). -/
lemma decrypt_and_merge_error_keeps_absence (ora : Oracles) (media : Media)
    (mp : String) (s : RunState) (e : Err)
    (hff : ∀ n, ora.ffmpegOutcome n ≠ ToolOutcome.failHalfOutput)
    (himg : media.content_type = "video" ∨ finalOutputPath media mp ≠ mp)
    (h0 : fsExists s.cs.fs (finalOutputPath media mp) = false)
    (hrun : (decrypt_and_merge_media ora media mp s).1 = Except.error e) :
    fsExists ((decrypt_and_merge_media ora media mp s).2).cs.fs
      (finalOutputPath media mp) = false := by
  rw [fsExists_false_iff] at h0 ⊢
  have hFnot : finalOutputPath media mp ∉
      globSegs s.cs.fs (pathParent mp) media.content_id := by
    intro hmem
    have hex := (globSegs_sub s.cs.fs (pathParent mp) media.content_id _ hmem).1
    rw [fsExists_eq_isSome, h0] at hex
    exact Bool.noConfusion hex
  unfold decrypt_and_merge_media at hrun ⊢
  rcases h1 : decryptLoop ora media (globSegs s.cs.fs (pathParent mp) media.content_id) s
    with ⟨r1, t1⟩
  simp only [h1] at hrun
  have habs1 : fsLookup t1.cs.fs (finalOutputPath media mp) = Option.none := by
    have hpres := lookup_decryptLoop_notmem ora media (finalOutputPath media mp)
      (globSegs s.cs.fs (pathParent mp) media.content_id) s hFnot
    rw [h1] at hpres
    rw [hpres]
    exact h0
  cases r1 with
  | error e1 => exact habs1
  | ok inputs =>
    show fsLookup ((mergeStep ora media mp inputs t1).2).cs.fs
      (finalOutputPath media mp) = Option.none
    replace hrun : (mergeStep ora media mp inputs t1).1 = Except.error e := hrun
    unfold mergeStep at hrun ⊢
    rcases h2 : ffmpegExec ora inputs mp t1 with ⟨r2, t2⟩
    simp only [h2] at hrun
    cases r2 with
    | error e2 =>
      show fsLookup t2.cs.fs (finalOutputPath media mp) = Option.none
      have hfs2 : t2.cs.fs = t1.cs.fs := by
        have h := ffmpegExec_error_fs ora inputs mp t1 e2 (hff t1.ffmpegCalls)
          (by rw [h2])
        rw [h2] at h
        exact h
      rw [hfs2]
      exact habs1
    | ok u =>
      cases u
      show fsLookup ((finishStep ora media mp
          (deleteSegs mp media.content_id t2)).2).cs.fs
        (finalOutputPath media mp) = Option.none
      replace hrun : (finishStep ora media mp
          (deleteSegs mp media.content_id t2)).1 = Except.error e := hrun
      have hfs2 : t2.cs.fs =
          fsWrite t1.cs.fs mp
            (FileData.ffout (inputs.filterMap (fsLookup t1.cs.fs))) := by
        have h := ffmpegExec_ok_inv ora inputs mp t1 (by rw [h2])
        rw [h2] at h
        exact h
      unfold finishStep at hrun ⊢
      by_cases hv : (media.content_type == "video") = true
      · rw [if_pos hv] at hrun
        exact absurd hrun (by simp)
      · rw [if_neg hv] at hrun
        rw [if_neg hv]
        have hFne : finalOutputPath media mp ≠ mp := by
          cases himg with
          | inl hvid => exact absurd (by simp [hvid]) hv
          | inr hne => exact hne
        have habs2 : fsLookup (deleteSegs mp media.content_id t2).cs.fs
            (finalOutputPath media mp) = Option.none := by
          simp only [deleteSegs]
          apply fsLookup_foldl_fsDelete_none
          rw [hfs2, fsLookup_fsWrite_ne _ mp _ hFne]
          exact habs1
        rcases h3 : ffmpegExec ora [mp] (withSuffix mp ("." ++ media.extension))
            (deleteSegs mp media.content_id t2) with ⟨r3, t3⟩
        simp only [h3] at hrun
        cases r3 with
        | error e3 =>
          show fsLookup t3.cs.fs (finalOutputPath media mp) = Option.none
          have hfs3 : t3.cs.fs = (deleteSegs mp media.content_id t2).cs.fs := by
            have h := ffmpegExec_error_fs ora [mp]
              (withSuffix mp ("." ++ media.extension))
              (deleteSegs mp media.content_id t2) e3
              (hff (deleteSegs mp media.content_id t2).ffmpegCalls) (by rw [h3])
            rw [h3] at h
            exact h
          rw [hfs3]
          exact habs2
        | ok u2 => exact absurd hrun (by simp)

/-- HashablePSSH equality is reflexive. -/
lemma hashablePSSHEq_refl (a : PSSH) : hashablePSSHEq a a = true := by
  simp [hashablePSSHEq]

/-- A resolvable protection header is returned by get_widevine_pssh,
which touches only the header cache and the operation log. -/
lemma get_widevine_pssh_ready (ora : Oracles) (url : String) (P : PSSH)
    (s : RunState) (h : psshReady ora url P s.cs) :
    ∃ t, get_widevine_pssh ora url s = (Except.ok (some P), t) ∧
      t.cs.fs = s.cs.fs ∧ t.cs.keyCache = s.cs.keyCache ∧
      t.decryptCalls = s.decryptCalls ∧ t.ffmpegCalls = s.ffmpegCalls ∧
      psshCacheLookup t.cs url = some (some P) := by
  cases h with
  | inl hc =>
    refine ⟨s, ?_, rfl, rfl, rfl, rfl, hc⟩
    unfold get_widevine_pssh
    rw [hc]
  | inr hmiss =>
    obtain ⟨hc, hof⟩ := hmiss
    unfold psshOf at hof
    cases hm : ora.manifest url with
    | error e =>
      rw [hm] at hof
      exact absurd hof (by simp)
    | ok mpd =>
      rw [hm] at hof
      replace hof : get_widevine_pssh_body ora.parsePSSH mpd =
        Except.ok (some P) := hof
      have heq : get_widevine_pssh ora url s =
          (Except.ok (some P),
            { s with
                ops := s.ops ++ [Op.manifestFetch],
                cs := { s.cs with
                  psshCache := s.cs.psshCache ++ [(url, some P)] } }) := by
        unfold get_widevine_pssh
        simp only [hc, hm, hof]
      refine ⟨_, heq, rfl, rfl, rfl, rfl, ?_⟩
      have hf : s.cs.psshCache.find? (fun e => e.1 == url) = Option.none := by
        simpa [psshCacheLookup, Option.map_eq_none'] using hc
      simp [psshCacheLookup, List.find?_append, hf]

/-- A resolvable content key is returned by get_decryption_key, which
touches only the key cache and the operation log. -/
lemma get_decryption_key_ready (ora : Oracles) (P : PSSH) (K : ContentKey)
    (s : RunState) (h : keyReady ora P K s.cs) :
    ∃ t, get_decryption_key ora P s = (Except.ok (some K), t) ∧
      t.cs.fs = s.cs.fs ∧ t.cs.psshCache = s.cs.psshCache ∧
      t.decryptCalls = s.decryptCalls ∧ t.ffmpegCalls = s.ffmpegCalls ∧
      keyCacheLookup t.cs P = some (some K) := by
  cases h with
  | inl hc =>
    refine ⟨s, ?_, rfl, rfl, rfl, rfl, hc⟩
    unfold get_decryption_key
    rw [hc]
  | inr hmiss =>
    obtain ⟨hc, hof⟩ := hmiss
    have hf : s.cs.keyCache.find? (fun e => hashablePSSHEq e.1 P) = Option.none := by
      simpa [keyCacheLookup, Option.map_eq_none'] using hc
    unfold keyOf at hof
    by_cases hdef : hashablePSSHEq P DEFAULT_PSSH = true
    · rw [if_pos hdef] at hof
      have hK : DEFAULT_KEY = K := by simpa using hof
      have heq : get_decryption_key ora P s =
          (Except.ok (some K),
            { s with cs := { s.cs with
                keyCache := s.cs.keyCache ++ [(P, some K)] } }) := by
        unfold get_decryption_key
        rw [← hK]
        simp only [hc, hdef, if_true]
      refine ⟨_, heq, rfl, rfl, rfl, rfl, ?_⟩
      simp [keyCacheLookup, List.find?_append, hf, hashablePSSHEq_refl]
    · rw [if_neg hdef] at hof
      cases hk : ora.license P with
      | error e =>
        rw [hk] at hof
        exact absurd hof (by simp)
      | ok keys =>
        rw [hk] at hof
        have hh : keys.head? = some K := by simpa using hof
        have heq : get_decryption_key ora P s =
            (Except.ok (some K),
              { s with
                  ops := s.ops ++ [Op.licenseRequest],
                  cs := { s.cs with
                    keyCache := s.cs.keyCache ++ [(P, some K)] } }) := by
          unfold get_decryption_key
          simp only [hc, hdef, Bool.false_eq_true, if_false, hk, hh]
        refine ⟨_, heq, rfl, rfl, rfl, rfl, ?_⟩
        simp [keyCacheLookup, List.find?_append, hf, hashablePSSHEq_refl]

/-- A successful packager invocation decrypts the segment in place. -/
lemma decrypt_file_ok (ora : Oracles) (f : String) (k : ContentKey)
    (s : RunState) (hpack : ora.packagerFound = true)
    (hdec : ora.decryptOutcome s.decryptCalls = ToolOutcome.ok) :
    decrypt_file ora f k s =
      (Except.ok (),
        { s with
            ops := s.ops ++ [Op.decryptRun],
            decryptCalls := s.decryptCalls + 1,
            cs := { s.cs with
              fs := fsWrite s.cs.fs f (FileData.dec (pathName f)) } }) := by
  unfold decrypt_file
  simp only [hpack, Bool.not_true, Bool.false_eq_true, if_false, hdec]

/-- With the packager present, resolvable header and key, and every
packager invocation succeeding, the decryption loop decrypts every
globbed segment in place and accumulates them in order. -/
lemma decryptLoop_ok (ora : Oracles) (media : Media) (P : PSSH) (K : ContentKey)
    (hpack : ora.packagerFound = true)
    (hdec : ∀ n, ora.decryptOutcome n = ToolOutcome.ok) :
    ∀ (files : List String) (s : RunState),
      psshReady ora media.signed_url P s.cs → keyReady ora P K s.cs →
      ∃ t, decryptLoop ora media files s = (Except.ok files, t) ∧
        t.cs.fs = files.foldl
          (fun fs f => fsWrite fs f (FileData.dec (pathName f))) s.cs.fs ∧
        t.ffmpegCalls = s.ffmpegCalls := by
  intro files
  induction files with
  | nil => intro s _ _; exact ⟨s, rfl, rfl, rfl⟩
  | cons f rest ih =>
    intro s hps hks
    obtain ⟨t1, h1, hfs1, hkc1, hdc1, hfc1, hcl1⟩ :=
      get_widevine_pssh_ready ora media.signed_url P s hps
    have hks1 : keyReady ora P K t1.cs := by
      cases hks with
      | inl hkk =>
        refine Or.inl ?_
        unfold keyCacheLookup
        rw [hkc1]
        exact hkk
      | inr hkk =>
        refine Or.inr ⟨?_, hkk.2⟩
        unfold keyCacheLookup
        rw [hkc1]
        exact hkk.1
    obtain ⟨t2, h2, hfs2, hpc2, hdc2, hfc2, hcl2⟩ :=
      get_decryption_key_ready ora P K t1 hks1
    have h3 := decrypt_file_ok ora f K t2 hpack (hdec t2.decryptCalls)
    have hps2 : psshCacheLookup t2.cs media.signed_url = some (some P) := by
      unfold psshCacheLookup
      rw [hpc2]
      exact hcl1
    obtain ⟨t4, h4, hfs4, hfc4⟩ := ih
      ({ t2 with
          ops := t2.ops ++ [Op.decryptRun],
          decryptCalls := t2.decryptCalls + 1,
          cs := { t2.cs with
            fs := fsWrite t2.cs.fs f (FileData.dec (pathName f)) } } : RunState)
      (Or.inl hps2) (Or.inl hcl2)
    refine ⟨t4, ?_, ?_, ?_⟩
    · unfold decryptLoop
      simp only [h1, h2, h3, h4]
    · rw [List.foldl_cons, hfs4]
      simp only [hfs2, hfs1]
    · exact hfc4.trans (hfc2.trans hfc1)

/-- With every input present, a successful ffmpeg outcome makes the run
succeed. -/
lemma ffmpegExec_ok_result (ora : Oracles) (inputs : List String)
    (output : String) (s : RunState)
    (hio : inputs.all (fun p => fsExists s.cs.fs p) = true)
    (hoc : ora.ffmpegOutcome s.ffmpegCalls = ToolOutcome.ok) :
    (ffmpegExec ora inputs output s).1 = Except.ok () := by
  unfold ffmpegExec
  have hmiss : (inputs.any (fun p => !fsExists s.cs.fs p)) = false := by
    rw [List.any_eq_false]
    intro p hp
    rw [List.all_eq_true] at hio
    simp [hio p hp]
  simp [hmiss, hoc]

/-- A fully successful run of _decrypt_and_merge_media returns the final
output path and leaves there the remux of the decrypted segments (for
still images, the frame extracted from that remux). -/
lemma decrypt_and_merge_ok_result (ora : Oracles) (media : Media) (mp : String)
    (s : RunState) (P : PSSH) (K : ContentKey)
    (hready : psshReady ora media.signed_url P s.cs)
    (hkey : keyReady ora P K s.cs)
    (hpack : ora.packagerFound = true)
    (hdec : ∀ n, ora.decryptOutcome n = ToolOutcome.ok)
    (hffok : ∀ n, ora.ffmpegOutcome n = ToolOutcome.ok)
    (hmp : globMatchesSeg media.content_id (pathName mp) = false)
    (himg : media.content_type = "video" ∨ finalOutputPath media mp ≠ mp) :
    (decrypt_and_merge_media ora media mp s).1 =
        Except.ok (finalOutputPath media mp) ∧
      fsLookup ((decrypt_and_merge_media ora media mp s).2).cs.fs
          (finalOutputPath media mp) =
        some (if (media.content_type == "video") = true then
            decryptedArtifact (globSegs s.cs.fs (pathParent mp) media.content_id)
          else
            FileData.ffout
              [decryptedArtifact (globSegs s.cs.fs (pathParent mp) media.content_id)]) := by
  obtain ⟨t1, h1, hfs1, hfc1⟩ := decryptLoop_ok ora media P K hpack hdec
    (globSegs s.cs.fs (pathParent mp) media.content_id) s hready hkey
  have hlookup1 : ∀ p ∈ globSegs s.cs.fs (pathParent mp) media.content_id,
      fsLookup t1.cs.fs p = some (FileData.dec (pathName p)) := by
    intro p hp
    rw [hfs1, fsLookup_foldl_write]
    simp [hp]
  have hex1 : (globSegs s.cs.fs (pathParent mp) media.content_id).all
      (fun p => fsExists t1.cs.fs p) = true := by
    rw [List.all_eq_true]
    intro p hp
    rw [fsExists_eq_isSome, hlookup1 p hp]
    rfl
  have hok1 := ffmpegExec_ok_result ora
    (globSegs s.cs.fs (pathParent mp) media.content_id) mp t1 hex1
    (hffok t1.ffmpegCalls)
  have hfs2 := ffmpegExec_ok_inv ora
    (globSegs s.cs.fs (pathParent mp) media.content_id) mp t1 hok1
  rw [filterMap_eq_map_of_mem (fsLookup t1.cs.fs)
    (fun f => FileData.dec (pathName f)) _ hlookup1] at hfs2
  rcases h2 : ffmpegExec ora
      (globSegs s.cs.fs (pathParent mp) media.content_id) mp t1 with ⟨r2, t2⟩
  rw [h2] at hok1 hfs2
  replace hok1 : r2 = Except.ok () := hok1
  subst hok1
  replace hfs2 : t2.cs.fs =
      fsWrite t1.cs.fs mp
        (FileData.ffout
          ((globSegs s.cs.fs (pathParent mp) media.content_id).map
            (fun f => FileData.dec (pathName f)))) := hfs2
  have hmid : fsLookup (deleteSegs mp media.content_id t2).cs.fs mp =
      some (FileData.ffout
        ((globSegs s.cs.fs (pathParent mp) media.content_id).map
          (fun f => FileData.dec (pathName f)))) := by
    simp only [deleteSegs]
    rw [fsLookup_foldl_fsDelete_notmem mp _ _ ?notmem]
    case notmem =>
      intro hmem
      have hgm := (globSegs_sub _ _ _ _ hmem).2.2
      rw [hgm] at hmp
      exact Bool.noConfusion hmp
    rw [hfs2, fsLookup_fsWrite_self]
  unfold decrypt_and_merge_media
  simp only [h1]
  show (mergeStep ora media mp
        (globSegs s.cs.fs (pathParent mp) media.content_id) t1).1 =
      Except.ok (finalOutputPath media mp) ∧
    fsLookup ((mergeStep ora media mp
        (globSegs s.cs.fs (pathParent mp) media.content_id) t1).2).cs.fs
      (finalOutputPath media mp) = _
  unfold mergeStep
  simp only [h2]
  show (finishStep ora media mp (deleteSegs mp media.content_id t2)).1 =
      Except.ok (finalOutputPath media mp) ∧
    fsLookup ((finishStep ora media mp
        (deleteSegs mp media.content_id t2)).2).cs.fs
      (finalOutputPath media mp) = _
  unfold finishStep
  by_cases hv : (media.content_type == "video") = true
  · rw [if_pos hv, if_pos hv]
    have hF : finalOutputPath media mp = mp := by
      simp [finalOutputPath, hv]
    constructor
    · show Except.ok mp = Except.ok (finalOutputPath media mp)
      rw [hF]
    · show fsLookup (deleteSegs mp media.content_id t2).cs.fs
        (finalOutputPath media mp) = _
      rw [hF, hmid]
      rfl
  · rw [if_neg hv, if_neg hv]
    have hFne : finalOutputPath media mp ≠ mp := by
      cases himg with
      | inl hvid => exact absurd (by simp [hvid]) hv
      | inr hne => exact hne
    have hF : finalOutputPath media mp = withSuffix mp ("." ++ media.extension) := by
      simp only [finalOutputPath]
      rw [if_neg hv]
    have hex2 : ([mp] : List String).all
        (fun p => fsExists (deleteSegs mp media.content_id t2).cs.fs p) = true := by
      simp [fsExists_eq_isSome, hmid]
    have hok2 := ffmpegExec_ok_result ora [mp]
      (withSuffix mp ("." ++ media.extension))
      (deleteSegs mp media.content_id t2) hex2
      (hffok (deleteSegs mp media.content_id t2).ffmpegCalls)
    have hfs3 := ffmpegExec_ok_inv ora [mp]
      (withSuffix mp ("." ++ media.extension))
      (deleteSegs mp media.content_id t2) hok2
    rcases h3 : ffmpegExec ora [mp] (withSuffix mp ("." ++ media.extension))
        (deleteSegs mp media.content_id t2) with ⟨r3, t3⟩
    rw [h3] at hok2 hfs3
    replace hok2 : r3 = Except.ok () := hok2
    subst hok2
    simp only [h3]
    constructor
    · show Except.ok (withSuffix mp ("." ++ media.extension)) =
        Except.ok (finalOutputPath media mp)
      rw [hF]
    · show fsLookup (fsDelete t3.cs.fs mp) (finalOutputPath media mp) = _
      rw [fsLookup_fsDelete_ne _ mp hFne]
      replace hfs3 : t3.cs.fs =
          fsWrite (deleteSegs mp media.content_id t2).cs.fs
            (withSuffix mp ("." ++ media.extension))
            (FileData.ffout
              ([mp].filterMap
                (fsLookup (deleteSegs mp media.content_id t2).cs.fs))) := hfs3
      rw [hfs3, hF, fsLookup_fsWrite_self]
      simp [List.filterMap, hmid, decryptedArtifact]

/-- C1 counterexample: with both segments decrypting successfully and
the ffmpeg remux failing after partially writing its output, the run
raises but a (half-written) file remains at the final output path —
ffmpeg writes directly to the final path, with no temp-file + rename
discipline. -/
theorem decrypt_ffmpeg_failure_leaves_final_file :
    (decrypt_and_merge_media fixOraFfmpegHalf fixMediaVid "out/c1.mp4"
        fixRSSegs).1 = Except.error Err.toolFailed ∧
      fsExists ((decrypt_and_merge_media fixOraFfmpegHalf fixMediaVid "out/c1.mp4"
          fixRSSegs).2).cs.fs "out/c1.mp4" = true ∧
      finalOutputPath fixMediaVid "out/c1.mp4" = "out/c1.mp4" :=
  ⟨rfl, rfl, rfl⟩

/-- C1 (amended): per-segment decryption is atomic — any failing run in
which no ffmpeg invocation half-writes its output leaves no file at the
final output path when none was there before (so re-running is safe) —
and a run in which the header and key resolve and every external tool
succeeds produces the correct final artifact: the ffmpeg remux of the
decrypted segments (for still images, the frame extracted from it).
However a failed ffmpeg remux or frame extraction may leave a partial
file at the final output path, since ffmpeg writes to it directly. -/
theorem decrypt_and_merge_atomicity_amended (ora : Oracles) (media : Media)
    (mp : String) (s : RunState)
    (himg : media.content_type = "video" ∨ finalOutputPath media mp ≠ mp) :
    (∀ e, (∀ n, ora.ffmpegOutcome n ≠ ToolOutcome.failHalfOutput) →
      fsExists s.cs.fs (finalOutputPath media mp) = false →
      (decrypt_and_merge_media ora media mp s).1 = Except.error e →
      fsExists ((decrypt_and_merge_media ora media mp s).2).cs.fs
        (finalOutputPath media mp) = false) ∧
    (∀ P K, psshReady ora media.signed_url P s.cs → keyReady ora P K s.cs →
      ora.packagerFound = true →
      (∀ n, ora.decryptOutcome n = ToolOutcome.ok) →
      (∀ n, ora.ffmpegOutcome n = ToolOutcome.ok) →
      globMatchesSeg media.content_id (pathName mp) = false →
      (decrypt_and_merge_media ora media mp s).1 =
          Except.ok (finalOutputPath media mp) ∧
        fsLookup ((decrypt_and_merge_media ora media mp s).2).cs.fs
            (finalOutputPath media mp) =
          some (if (media.content_type == "video") = true then
              decryptedArtifact (globSegs s.cs.fs (pathParent mp) media.content_id)
            else
              FileData.ffout
                [decryptedArtifact
                  (globSegs s.cs.fs (pathParent mp) media.content_id)])) :=
  ⟨fun e hff h0 hrun =>
      decrypt_and_merge_error_keeps_absence ora media mp s e hff himg h0 hrun,
    fun P K h1 h2 h3 h4 h5 h6 =>
      decrypt_and_merge_ok_result ora media mp s P K h1 h2 h3 h4 h5 h6 himg⟩

/-- C1 witness: the amended atomicity theorem at the fixture video
descriptor: a run whose packager fails (producing no output) leaves
nothing at the final path, and a fully successful run produces the
merged decrypted artifact there. -/
theorem decrypt_and_merge_atomicity_amended_witness :
    fsExists ((decrypt_and_merge_media fixOraDecryptFail fixMediaVid "out/c1.mp4"
        fixRSSegs).2).cs.fs (finalOutputPath fixMediaVid "out/c1.mp4") = false ∧
      ((decrypt_and_merge_media fixOraOk fixMediaVid "out/c1.mp4" fixRSSegs).1 =
          Except.ok (finalOutputPath fixMediaVid "out/c1.mp4") ∧
        fsLookup ((decrypt_and_merge_media fixOraOk fixMediaVid "out/c1.mp4"
            fixRSSegs).2).cs.fs (finalOutputPath fixMediaVid "out/c1.mp4") =
          some (if (fixMediaVid.content_type == "video") = true then
              decryptedArtifact (globSegs fixRSSegs.cs.fs
                (pathParent "out/c1.mp4") fixMediaVid.content_id)
            else
              FileData.ffout
                [decryptedArtifact (globSegs fixRSSegs.cs.fs
                  (pathParent "out/c1.mp4") fixMediaVid.content_id)])) :=
  ⟨(decrypt_and_merge_atomicity_amended fixOraDecryptFail fixMediaVid "out/c1.mp4"
        fixRSSegs (Or.inl rfl)).1
      (Err.fileNotFound "os.replace: decrypted output missing")
      (fun _ h => ToolOutcome.noConfusion h) rfl rfl,
    (decrypt_and_merge_atomicity_amended fixOraOk fixMediaVid "out/c1.mp4"
        fixRSSegs (Or.inl rfl)).2
      fixWvP fixKey (Or.inr ⟨rfl, rfl⟩) (Or.inr ⟨rfl, rfl⟩) rfl (fun _ => rfl)
      (fun _ => rfl) rfl⟩
